import Mathlib

/-!
Verification development for the malevich-sdk pipeline core.

The Python sources are shallowly embedded: Python dicts become
insertion-ordered association lists with dict-update semantics,
json.dumps becomes an executable renderer over a Json tree,
hashlib.sha256 is implemented over byte lists, raised exceptions become
an Except error type, and the remote platform / document store become
explicit state or oracle parameters following section 6 of the spec.
-/

set_option linter.unusedVariables false
set_option maxRecDepth 8192
set_option linter.unnecessarySeqFocus false

namespace MalevichSdk

/-! ## Association lists with Python dict semantics -/

/-- Lookup of the value bound to a key, first binding wins
(Python dicts have unique keys, so this matches indexing). -/
def alookup {α : Type} (k : String) : List (String × α) → Option α
  | [] => none
  | p :: t => if p.1 = k then some p.2 else alookup k t

/-- Python dict assignment d[k] = v: overwrite in place if the key is
present, else append at the end (insertion order preserved). -/
def dictSet {α : Type} (l : List (String × α)) (k : String) (v : α) : List (String × α) :=
  match l with
  | [] => [(k, v)]
  | p :: t => if p.1 = k then (k, v) :: t else p :: dictSet t k v

/-- Keys of an association list in insertion order. -/
def keysOf {α : Type} (l : List (String × α)) : List String := l.map Prod.fst

/-- Read of a collections.defaultdict(int): missing keys read as 0. -/
def dget (l : List (String × Nat)) (k : String) : Nat := (alookup k l).getD 0

/-- The keys are pairwise distinct (always true for a Python dict). -/
def NodupKeys {α : Type} (l : List (String × α)) : Prop :=
  l.Pairwise (fun a b => a.1 ≠ b.1)

instance {α : Type} (l : List (String × α)) : Decidable (NodupKeys l) := by
  unfold NodupKeys; infer_instance

/-- Relates two optional values by a relation, none with none. -/
def OptRel {α : Type} (r : α → α → Prop) : Option α → Option α → Prop
  | none, none => True
  | some a, some b => r a b
  | _, _ => False

/-! ## Code-point comparison of strings (Python string ordering) -/

/-- Lexicographic strict comparison of char lists by code point,
the order Python uses when json.dumps sorts dict keys. -/
def clLt : List Char → List Char → Bool
  | [], [] => false
  | [], _ :: _ => true
  | _ :: _, [] => false
  | a :: as, b :: bs =>
    if a.toNat < b.toNat then true
    else if a.toNat = b.toNat then clLt as bs
    else false

/-- Strict code-point order on strings. -/
def strLt (a b : String) : Bool := clLt a.data b.data

/-- Insert a pair into a list sorted by key, keeping it sorted
(stable like Python sorted). -/
def insortKey {α : Type} (p : String × α) : List (String × α) → List (String × α)
  | [] => [p]
  | q :: t => if strLt q.1 p.1 then q :: insortKey p t else p :: q :: t

/-- Sort an association list by key in code-point order, the effect of
sort_keys=True in json.dumps. -/
def sortByKey {α : Type} : List (String × α) → List (String × α)
  | [] => []
  | p :: t => insortKey p (sortByKey t)

/-! ## Decimal and hexadecimal digits -/

/-- Decimal digit character. -/
def decDig (d : Nat) : Char := Char.ofNat (48 + d)

/-- Decimal representation of a natural number, as produced by str()
and json.dumps for ints. -/
def natDecChars (n : Nat) : List Char :=
  if h : n < 10 then [decDig n]
  else natDecChars (n / 10) ++ [decDig (n % 10)]
decreasing_by exact Nat.div_lt_self (by omega) (by omega)

/-- Decimal representation as a string. -/
def natDec (n : Nat) : String := ⟨natDecChars n⟩

/-- Is this a decimal digit character. -/
def isDecDig (c : Char) : Bool := 48 ≤ c.toNat && c.toNat ≤ 57

/-- Greedy decimal number scanner; accumulates digits into acc and
stops at the first non-digit. -/
def scanDec (acc : Nat) : List Char → Nat × List Char
  | [] => (acc, [])
  | c :: t => if isDecDig c then scanDec (acc * 10 + (c.toNat - 48)) t else (acc, c :: t)

/-- Lowercase hexadecimal digit character, as produced by hexdigest
and by the unicode escapes of json.dumps. -/
def hexDig (d : Nat) : Char := Char.ofNat (if d < 10 then 48 + d else 87 + d)

/-- Numeric value of a hexadecimal digit character. -/
def hexVal (c : Char) : Nat := if c.toNat ≤ 57 then c.toNat - 48 else c.toNat - 87

/-- Is this a lowercase hexadecimal digit character. -/
def isHexDig (c : Char) : Bool :=
  (48 ≤ c.toNat && c.toNat ≤ 57) || (97 ≤ c.toNat && c.toNat ≤ 102)

/-- Four fixed hexadecimal digits, used by the unicode escape \uXXXX. -/
def hex4 (n : Nat) : List Char :=
  [hexDig (n / 4096 % 16), hexDig (n / 256 % 16), hexDig (n / 16 % 16), hexDig (n % 16)]

/-- Lowercase hexadecimal rendering of a byte list (hexdigest). -/
def bytesHex (l : List Nat) : List Char :=
  (l.map fun b => [hexDig (b / 16), hexDig (b % 16)]).flatten

/-! ## UTF-8 encoding (the str.encode() step before hashing) -/

/-- UTF-8 bytes of one character. -/
def utf8Char (c : Char) : List Nat :=
  let n := c.toNat
  if n < 128 then [n]
  else if n < 2048 then [192 + n / 64, 128 + n % 64]
  else if n < 65536 then [224 + n / 4096, 128 + n / 64 % 64, 128 + n % 64]
  else [240 + n / 262144, 128 + n / 4096 % 64, 128 + n / 64 % 64, 128 + n % 64]

/-- UTF-8 bytes of a character list. -/
def utf8 : List Char → List Nat
  | [] => []
  | c :: t => utf8Char c ++ utf8 t

/-- Decode one UTF-8 character; returns its code point and the rest. -/
def utf8DecodeChar : List Nat → Option (Nat × List Nat)
  | [] => none
  | b :: t =>
    if b < 128 then some (b, t)
    else if b < 192 then none
    else if b < 224 then
      match t with
      | b2 :: t2 => some ((b - 192) * 64 + (b2 - 128), t2)
      | _ => none
    else if b < 240 then
      match t with
      | b2 :: b3 :: t2 => some (((b - 224) * 64 + (b2 - 128)) * 64 + (b3 - 128), t2)
      | _ => none
    else
      match t with
      | b2 :: b3 :: b4 :: t2 =>
        some ((((b - 240) * 64 + (b2 - 128)) * 64 + (b3 - 128)) * 64 + (b4 - 128), t2)
      | _ => none

/-! ## SHA-256 (hashlib.sha256) -/

/-- Addition modulo 2 to the 32. -/
def add32 (a b : Nat) : Nat := (a + b) % 4294967296

/-- Logical right shift of a 32-bit word. -/
def shr32 (n x : Nat) : Nat := x / 2 ^ n

/-- Right rotation of a 32-bit word. -/
def rotr32 (n x : Nat) : Nat := (x / 2 ^ n + x % 2 ^ n * 2 ^ (32 - n)) % 4294967296

/-- SHA-256 choose function. -/
def sha256Ch (x y z : Nat) : Nat := (x &&& y) ^^^ ((x ^^^ 4294967295) &&& z)

/-- SHA-256 majority function. -/
def sha256Maj (x y z : Nat) : Nat := (x &&& y) ^^^ (x &&& z) ^^^ (y &&& z)

/-- SHA-256 big sigma 0. -/
def bigSigma0 (x : Nat) : Nat := rotr32 2 x ^^^ rotr32 13 x ^^^ rotr32 22 x

/-- SHA-256 big sigma 1. -/
def bigSigma1 (x : Nat) : Nat := rotr32 6 x ^^^ rotr32 11 x ^^^ rotr32 25 x

/-- SHA-256 small sigma 0. -/
def smallSigma0 (x : Nat) : Nat := rotr32 7 x ^^^ rotr32 18 x ^^^ shr32 3 x

/-- SHA-256 small sigma 1. -/
def smallSigma1 (x : Nat) : Nat := rotr32 17 x ^^^ rotr32 19 x ^^^ shr32 10 x

/-- SHA-256 round constants. -/
def sha256K : List Nat :=
  [1116352408, 1899447441, 3049323471, 3921009573, 961987163, 1508970993, 2453635748, 2870763221,
   3624381080, 310598401, 607225278, 1426881987, 1925078388, 2162078206, 2614888103, 3248222580,
   3835390401, 4022224774, 264347078, 604807628, 770255983, 1249150122, 1555081692, 1996064986,
   2554220882, 2821834349, 2952996808, 3210313671, 3336571891, 3584528711, 113926993, 338241895,
   666307205, 773529912, 1294757372, 1396182291, 1695183700, 1986661051, 2177026350, 2456956037,
   2730485921, 2820302411, 3259730800, 3345764771, 3516065817, 3600352804, 4094571909, 275423344,
   430227734, 506948616, 659060556, 883997877, 958139571, 1322822218, 1537002063, 1747873779,
   1955562222, 2024104815, 2227730452, 2361852424, 2428436474, 2756734187, 3204031479, 3329325298]

/-- SHA-256 initial hash values. -/
def sha256H0 : List Nat :=
  [1779033703, 3144134277, 1013904242, 2773480762,
   1359893119, 2600822924, 528734635, 1541459225]

/-- Big-endian byte decomposition of a value into n bytes. -/
def beBytes (n v : Nat) : List Nat :=
  (List.range n).map fun i => v / 2 ^ (8 * (n - 1 - i)) % 256

/-- Group bytes into big-endian 32-bit words. -/
def bytesToWords : List Nat → List Nat
  | a :: b :: c :: d :: t => (((a * 256 + b) * 256 + c) * 256 + d) :: bytesToWords t
  | _ => []

/-- Split a byte list into 64-byte blocks. -/
def chunks64 : List Nat → List (List Nat)
  | [] => []
  | a :: l => (a :: l).take 64 :: chunks64 ((a :: l).drop 64)
termination_by l => l.length
decreasing_by
  simp only [List.length_drop, List.length_cons]
  omega

/-- SHA-256 message padding. -/
def sha256Pad (msg : List Nat) : List Nat :=
  let r := msg.length % 64
  let k := (119 - r) % 64
  msg ++ 128 :: List.replicate k 0 ++ beBytes 8 (8 * msg.length)

/-- Extend the 16 words of a block to a 64-word message schedule. -/
def sha256Schedule (w : List Nat) : List Nat :=
  (List.range 48).foldl
    (fun ws j =>
      let i := j + 16
      ws ++ [add32 (add32 (smallSigma1 (ws.getD (i - 2) 0)) (ws.getD (i - 7) 0))
                   (add32 (smallSigma0 (ws.getD (i - 15) 0)) (ws.getD (i - 16) 0))])
    w

/-- One SHA-256 compression round. -/
def sha256Round (st : List Nat) (kw : Nat × Nat) : List Nat :=
  match st with
  | [a, b, c, d, e, f, g, h] =>
    let t1 := add32 h (add32 (bigSigma1 e) (add32 (sha256Ch e f g) (add32 kw.1 kw.2)))
    let t2 := add32 (bigSigma0 a) (sha256Maj a b c)
    [add32 t1 t2, a, b, c, add32 d t1, e, f, g]
  | other => other

/-- SHA-256 compression of one block into the running hash. -/
def sha256Compress (h : List Nat) (block : List Nat) : List Nat :=
  let w := sha256Schedule (bytesToWords block)
  let st := (sha256K.zip w).foldl sha256Round h
  (h.zip st).map fun p => add32 p.1 p.2

/-- SHA-256 digest of a byte list, 32 bytes. -/
def sha256 (msg : List Nat) : List Nat :=
  (((chunks64 (sha256Pad msg)).foldl sha256Compress sha256H0).map (beBytes 4)).flatten

/-! ## JSON values and json.dumps

The renderer mirrors CPython json.dumps with its default arguments:
item separator comma-space, key separator colon-space, ensure_ascii
escaping of control and non-ASCII characters, lowercase unicode escapes
and surrogate pairs for astral code points.  A total parser is defined
as well, only to prove the renderer injective.
-/

/-- The double quote character. -/
def qu : Char := Char.ofNat 34

/-- The backslash character. -/
def bs : Char := Char.ofNat 92

/-- The opening curly brace character. -/
def lbrace : Char := Char.ofNat 123

/-- The closing curly brace character. -/
def rbrace : Char := Char.ofNat 125

/-- Escape of one character inside a JSON string literal
(CPython py_encode_basestring_ascii). -/
def escChar (c : Char) : List Char :=
  let n := c.toNat
  if c = qu then [bs, qu]
  else if c = bs then [bs, bs]
  else if n = 8 then [bs, 'b']
  else if n = 9 then [bs, 't']
  else if n = 10 then [bs, 'n']
  else if n = 12 then [bs, 'f']
  else if n = 13 then [bs, 'r']
  else if n < 32 ∨ 126 < n then
    if n < 65536 then bs :: 'u' :: hex4 n
    else bs :: 'u' :: hex4 (55296 + (n - 65536) / 1024) ++ bs :: 'u' :: hex4 (56320 + (n - 65536) % 1024)
  else [c]

/-- Escaped body of a JSON string literal. -/
def escBody : List Char → List Char
  | [] => []
  | c :: t => escChar c ++ escBody t

/-- Decimal rendering of an integer, as json.dumps prints ints. -/
def intDecChars (n : Int) : List Char :=
  if n < 0 then '-' :: natDecChars n.natAbs else natDecChars n.toNat

/-- JSON values. -/
inductive Json where
  | null
  | bool (b : Bool)
  | num (n : Int)
  | str (s : String)
  | arr (xs : List Json)
  | obj (fields : List (String × Json))

mutual

/-- Characters produced by json.dumps for a JSON value.
Object fields are rendered in list order; a caller models
sort_keys=True by sorting the field list first. -/
def render : Json → List Char
  | .null => 'n' :: 'u' :: 'l' :: 'l' :: []
  | .bool true => 't' :: 'r' :: 'u' :: 'e' :: []
  | .bool false => 'f' :: 'a' :: 'l' :: 's' :: 'e' :: []
  | .num n => intDecChars n
  | .str s => qu :: escBody s.data ++ [qu]
  | .arr [] => '[' :: ']' :: []
  | .arr (x :: xs) => '[' :: (render x ++ (renderArrTail xs ++ [']']))
  | .obj [] => lbrace :: rbrace :: []
  | .obj (f :: fs) => lbrace :: (renderField f ++ (renderObjTail fs ++ [rbrace]))

/-- One key-value pair, with the colon-space key separator. -/
def renderField : String × Json → List Char
  | (k, v) => qu :: escBody k.data ++ (qu :: ':' :: ' ' :: render v)

/-- Remaining array items, each preceded by comma-space. -/
def renderArrTail : List Json → List Char
  | [] => []
  | x :: xs => ',' :: ' ' :: (render x ++ renderArrTail xs)

/-- Remaining object fields, each preceded by comma-space. -/
def renderObjTail : List (String × Json) → List Char
  | [] => []
  | f :: fs => ',' :: ' ' :: (renderField f ++ renderObjTail fs)

end

/-- String produced by json.dumps for a JSON value. -/
def jsonDumps (j : Json) : String := ⟨render j⟩

mutual

/-- Fuel lower bound under which the parser recovers a rendered value. -/
def jweight : Json → Nat
  | .null => 1
  | .bool _ => 1
  | .num _ => 1
  | .str s => s.data.length + 1
  | .arr xs => 1 + jweightL xs
  | .obj fs => 2 + jweightF fs

/-- Fuel lower bound for a rendered array tail. -/
def jweightL : List Json → Nat
  | [] => 1
  | x :: t => 1 + jweight x + jweightL t

/-- Fuel lower bound for a rendered object tail. -/
def jweightF : List (String × Json) → Nat
  | [] => 1
  | f :: t => 2 + f.1.data.length + jweight f.2 + jweightF t

end

/-- Read exactly four hexadecimal digits. -/
def hexQuad : List Char → Option (Nat × List Char)
  | a :: b :: c :: d :: t =>
    if isHexDig a && isHexDig b && isHexDig c && isHexDig d then
      some (((hexVal a * 16 + hexVal b) * 16 + hexVal c) * 16 + hexVal d, t)
    else none
  | _ => none

/-- The single-character escapes. -/
def simpleEsc (e : Char) : Option Char :=
  if e = qu then some qu
  else if e = bs then some bs
  else if e = 'b' then some (Char.ofNat 8)
  else if e = 't' then some (Char.ofNat 9)
  else if e = 'n' then some (Char.ofNat 10)
  else if e = 'f' then some (Char.ofNat 12)
  else if e = 'r' then some (Char.ofNat 13)
  else none

/-- Decode a unicode escape after its backslash-u, consuming a second
escape when the first four digits are a high surrogate. -/
def parseUEsc (l : List Char) : Option (Char × List Char) :=
  (hexQuad l).bind fun p =>
    if 55296 ≤ p.1 ∧ p.1 < 56320 then
      match p.2 with
      | e2 :: u2 :: r4 =>
        if e2 = bs ∧ u2 = 'u' then
          (hexQuad r4).bind fun q =>
            if 56320 ≤ q.1 ∧ q.1 < 57344 then
              some (Char.ofNat (65536 + (p.1 - 55296) * 1024 + (q.1 - 56320)), q.2)
            else none
        else none
      | _ => none
    else some (Char.ofNat p.1, p.2)

/-- Parse the body of a JSON string literal up to its closing quote,
undoing escChar; fueled because the surrogate decoding is not a
structural recursion. -/
def parseStrBody : Nat → List Char → Option (List Char × List Char)
  | 0, _ => none
  | _ + 1, [] => none
  | fuel + 1, c :: rest =>
    if c = qu then some ([], rest)
    else if c = bs then
      match rest with
      | [] => none
      | e :: r2 =>
        match simpleEsc e with
        | some d => (parseStrBody fuel r2).map fun p => (d :: p.1, p.2)
        | none =>
          if e = 'u' then
            match parseUEsc r2 with
            | some (d, r3) => (parseStrBody fuel r3).map fun p => (d :: p.1, p.2)
            | none => none
          else none
    else (parseStrBody fuel rest).map fun p => (c :: p.1, p.2)

/-- Parse a JSON number as rendered by intDecChars. -/
def parseNum : List Char → Option (Json × List Char)
  | [] => none
  | c :: t =>
    if c = '-' then
      match t with
      | d :: t2 =>
        if isDecDig d then
          let p := scanDec (d.toNat - 48) t2
          some (.num (-(p.1 : Int)), p.2)
        else none
      | [] => none
    else if isDecDig c then
      let p := scanDec (c.toNat - 48) t
      some (.num (p.1 : Int), p.2)
    else none

/-- Consume an exact literal character sequence. -/
def dropLit : List Char → List Char → Option (List Char)
  | [], l => some l
  | k :: kt, c :: ct => if c = k then dropLit kt ct else none
  | _ :: _, [] => none

mutual

/-- Fueled parser for rendered JSON values; inverse of render on its
image, used only to prove render injective. -/
def parseJson : Nat → List Char → Option (Json × List Char)
  | 0, _ => none
  | _ + 1, [] => none
  | fuel + 1, c :: rest =>
    if c = 'n' then (dropLit ['u', 'l', 'l'] rest).map fun r => (.null, r)
    else if c = 't' then (dropLit ['r', 'u', 'e'] rest).map fun r => (.bool true, r)
    else if c = 'f' then (dropLit ['a', 'l', 's', 'e'] rest).map fun r => (.bool false, r)
    else if c = qu then (parseStrBody (fuel + 1) rest).map fun p => (.str ⟨p.1⟩, p.2)
    else if c = '[' then
      match rest with
      | [] => none
      | d :: r =>
        if d = ']' then some (.arr [], r)
        else
          match parseJson fuel (d :: r) with
          | some (x, r1) => (parseArrTail fuel r1).map fun p => (.arr (x :: p.1), p.2)
          | none => none
    else if c = lbrace then
      match rest with
      | [] => none
      | d :: r =>
        if d = rbrace then some (.obj [], r)
        else
          match parseObjField fuel (d :: r) with
          | some (f, r1) => (parseObjTail fuel r1).map fun p => (.obj (f :: p.1), p.2)
          | none => none
    else parseNum (c :: rest)

/-- Parse one rendered object field. -/
def parseObjField : Nat → List Char → Option ((String × Json) × List Char)
  | 0, _ => none
  | _ + 1, [] => none
  | fuel + 1, c :: rest =>
    if c = qu then
      match parseStrBody (fuel + 1) rest with
      | some (k, r1) =>
        match dropLit [':', ' '] r1 with
        | some r2 => (parseJson fuel r2).map fun p => ((⟨k⟩, p.1), p.2)
        | none => none
      | none => none
    else none

/-- Parse a rendered array tail. -/
def parseArrTail : Nat → List Char → Option (List Json × List Char)
  | 0, _ => none
  | _ + 1, [] => none
  | fuel + 1, d :: rest =>
    if d = ']' then some ([], rest)
    else if d = ',' then
      match rest with
      | e :: r2 =>
        if e = ' ' then
          match parseJson fuel r2 with
          | some (x, r3) => (parseArrTail fuel r3).map fun p => (x :: p.1, p.2)
          | none => none
        else none
      | [] => none
    else none

/-- Parse a rendered object tail. -/
def parseObjTail : Nat → List Char → Option (List (String × Json) × List Char)
  | 0, _ => none
  | _ + 1, [] => none
  | fuel + 1, d :: rest =>
    if d = rbrace then some ([], rest)
    else if d = ',' then
      match rest with
      | e :: r2 =>
        if e = ' ' then
          match parseObjField fuel r2 with
          | some (f, r3) => (parseObjTail fuel r3).map fun p => (f :: p.1, p.2)
          | none => none
        else none
      | [] => none
    else none

end

/-! ## Errors

Each variant stands for one raise site; the carried fields are the
identifiers interpolated into the Python exception message.
-/

/-- Errors raised by the embedded code.  referenceFormat is the
ValueError of parse_fn; nodeExists the ValueError of startwith and add;
duplicateGroupBinding and duplicateArgBinding the two ValueError sites
of addflow (both say DuplicateBinding in the spec taxonomy); keyErr a
Python KeyError; noPipeline and ambiguousTerminal the ValueError sites
of RunResults; pipelineNotFound the PipelineNotFoundError;
unexpectedStatus the ValueError of Run.status. -/
inductive Err where
  | referenceFormat (input : String)
  | nodeExists (name : String)
  | duplicateGroupBinding (node arg : String)
  | duplicateArgBinding (node arg : String)
  | keyErr (key : String)
  | noPipeline
  | pipelineNotFound (id : String)
  | ambiguousTerminal (count : Nat)
  | unexpectedStatus (status : String)
deriving DecidableEq, Repr

/-- The error of a computation, if any. -/
def errOf {α : Type} : Except Err α → Option Err
  | .error e => some e
  | .ok _ => none

/-! ## Data model (src/malevich_sdk/modelling and coretools models) -/

/-- Modelled from the spec: FunctionReference, section 3 — processorId,
optional embedded user and token, canonical image ref string, sync
flag.  The defining file modelling/image.py is not among the sources;
the fields are the ones parse_fn passes to the FunctionRef constructor
in utils.py (processor_id, user, token, ref, tag, syncRef). -/
structure FunctionRef where
  processor_id : String
  user : Option String
  token : Option String
  ref : String
  tag : String
  syncRef : Bool
deriving DecidableEq, Repr

/-- The argument binding model of malevich_coretools.  Exactly one of
the two fields is populated by this code base: collectionName for a
literal-data binding made in startwith, id for an upstream-node
reference made in addflow.  Fields this code base never sets are
omitted; being constant they would not affect any statement below. -/
structure AlternativeArgument where
  collectionName : Option String
  id : Option String
deriving DecidableEq, Repr

/-- Resource settings forwarded to base_settings of malevich_coretools
in startwith and add; modelled by its four arguments. -/
structure PlatformSettings where
  memory_limit : Option Int
  cpu_limit : Option Int
  memory_request : Option Int
  cpu_request : Option Int
deriving DecidableEq, Repr

/-- The processor model of malevich_coretools as populated by
Flow.startwith and Flow.add: image, processorId, cfg (the per-node
serialized config string), argument bindings, platform settings. -/
structure Processor where
  image : FunctionRef
  processorId : String
  cfg : String
  arguments : List (String × AlternativeArgument)
  platformSettings : PlatformSettings
deriving DecidableEq, Repr

/-- Json value of an optional string under model_dump (None becomes
null). -/
def optStrJson : Option String → Json
  | none => .null
  | some s => .str s

/-- Json value of an optional integer under model_dump. -/
def optIntJson : Option Int → Json
  | none => .null
  | some n => .num n

/-- model_dump of a FunctionRef, keys in sorted order as emitted by
json.dumps with sort_keys=True. -/
def funcRefJson (fr : FunctionRef) : Json :=
  .obj [("processor_id", .str fr.processor_id), ("ref", .str fr.ref),
        ("syncRef", .bool fr.syncRef), ("tag", .str fr.tag),
        ("token", optStrJson fr.token), ("user", optStrJson fr.user)]

/-- model_dump of an AlternativeArgument, keys sorted. -/
def argJson (a : AlternativeArgument) : Json :=
  .obj [("collectionName", optStrJson a.collectionName), ("id", optStrJson a.id)]

/-- model_dump of the platform settings, keys sorted. -/
def settingsJson (s : PlatformSettings) : Json :=
  .obj [("cpu_limit", optIntJson s.cpu_limit), ("cpu_request", optIntJson s.cpu_request),
        ("memory_limit", optIntJson s.memory_limit), ("memory_request", optIntJson s.memory_request)]

/-- model_dump of a Processor, keys sorted; the arguments dict is
key-sorted as well since json.dumps sorts recursively. -/
def procJson (p : Processor) : Json :=
  .obj [("arguments", .obj ((sortByKey p.arguments).map fun q => (q.1, argJson q.2))),
        ("cfg", .str p.cfg),
        ("image", funcRefJson p.image),
        ("platformSettings", settingsJson p.platformSettings),
        ("processorId", .str p.processorId)]

/-- Pipeline.hash, serialization step: json.dumps(processors_dict,
sort_keys=True) over the model_dump of every processor. -/
def serializeProcessors (l : List (String × Processor)) : List Char :=
  render (.obj ((sortByKey l).map fun q => (q.1, procJson q.2)))

/-- Pipeline.hash, encode step: the UTF-8 bytes fed to hashlib. -/
def digestInput (l : List (String × Processor)) : List Nat :=
  utf8 (serializeProcessors l)

/-- Pipeline.hash: sha256 digest of the canonical serialization. -/
def pipelineHash (l : List (String × Processor)) : List Nat :=
  sha256 (digestInput l)

/-- Pipeline.hash().hex(): lowercase hex digest, used as the pipeline
identity and as the output-collection name prefix. -/
def pipelineHashHex (l : List (String × Processor)) : String :=
  ⟨bytesHex (pipelineHash l)⟩

/-- A result descriptor of malevich_coretools (only its name is set by
this code base). -/
structure Result where
  name : String
deriving DecidableEq, Repr

/-- The core pipeline model sent to the platform: id, processors and
the results mapping. -/
structure CorePipeline where
  pipelineId : String
  processors : List (String × Processor)
  results : List (String × List Result)
deriving DecidableEq, Repr

/-! ## core_api/pipeline.py -/

/-- The Pipeline value of core_api/pipeline.py: an id, the processors
and the optionally fetched result map (which as_core_pipeline
ignores). -/
structure Pipeline where
  id : String
  processors : List (String × Processor)
  result_map : Option (List (String × List Result))
deriving DecidableEq, Repr

/-- Pipeline.__init__ with id=None: the id defaults to the content
digest of the processors. -/
def Pipeline.make (processors : List (String × Processor)) : Pipeline :=
  ⟨pipelineHashHex processors, processors, none⟩

/-- Pipeline.as_core_pipeline: rebuilds the results mapping, one
descriptor per node named digest-hex underscore node-name. -/
def asCorePipeline (p : Pipeline) : CorePipeline :=
  ⟨p.id, p.processors,
   p.processors.map fun q => (q.1, [⟨pipelineHashHex p.processors ++ "_" ++ q.1⟩])⟩

/-- The remote store of registered pipelines, keyed by pipeline id. -/
def PlatformState : Type := List (String × CorePipeline)

/-- Modelled from the spec: the Platform API collaborator getPipeline(id)
of section 6, a lookup in the remote store (malevich_coretools is an
external collaborator, not part of the sources). -/
def getPipeline (st : PlatformState) (id : String) : Option CorePipeline :=
  alookup id st

/-- Modelled from the spec: the Platform API collaborator
createPipeline(id, processors, results) of section 6, registering the
graph under the id. -/
def createPipeline (st : PlatformState) (id : String)
    (processors : List (String × Processor)) (results : List (String × List Result)) :
    PlatformState :=
  dictSet st id ⟨id, processors, results⟩

/-- Pipeline.get: fetch by id; a missing pipeline (and, in the source,
any other failure of the underlying call) surfaces as
PipelineNotFoundError. -/
def Pipeline.get (st : PlatformState) (id : String) : Except Err Pipeline :=
  match getPipeline st id with
  | some cp => .ok ⟨cp.pipelineId, cp.processors, some cp.results⟩
  | none => .error (.pipelineNotFound id)

/-- Pipeline.upsert: compute the identity, try to fetch; only a
PipelineNotFoundError from that initial fetch is swallowed and drives
create-then-refetch; both branches return the result of a fetch.  The
Bool records whether the create side effect ran. -/
def Pipeline.upsert (st : PlatformState) (processors : List (String × Processor)) :
    Except Err Pipeline × PlatformState × Bool :=
  let p := Pipeline.make processors
  match Pipeline.get st p.id with
  | .ok fetched => (.ok fetched, st, false)
  | .error (.pipelineNotFound _) =>
    let core := asCorePipeline p
    let st2 := createPipeline st p.id core.processors core.results
    (Pipeline.get st2 p.id, st2, true)
  | .error e => (.error e, st, false)

/-! ## modelling/flow.py -/

/-- A named group of literal data (modelling/group.py). -/
structure Group where
  name : String
  data : List (String × Json)

/-- A group together with its generated collection name
(FlowGroup in modelling/flow.py). -/
structure FlowGroup where
  name : String
  collection_name : String
  data : List (String × Json)

/-- The mutable state of a Flow: the defaultdict(int) id_map, the
processors dict of the temporary core pipeline, and the per-node
groups defaultdict(dict). -/
structure FlowState where
  id_map : List (String × Nat)
  processors : List (String × Processor)
  groups : List (String × List (String × FlowGroup))

/-- Flow.__init__. -/
def emptyFlow : FlowState := ⟨[], [], []⟩

/-- json.dumps(config or dict()) producing the cfg string of a node. -/
def dumpConfig (config : Option (List (String × Json))) : String :=
  jsonDumps (.obj (config.getD []))

/-- The loop of startwith over the positional groups: increment the
per-flow counter for the group name and attach the generated collection
name groupName underscore counter. -/
def mapGroups : List (String × Nat) → List Group → List (String × Nat) × List FlowGroup
  | m, [] => (m, [])
  | m, g :: t =>
    let c := dget m g.name + 1
    let m2 := dictSet m g.name c
    let fg : FlowGroup := ⟨g.name, g.name ++ "_" ++ natDec c, g.data⟩
    let (m3, rest) := mapGroups m2 t
    (m3, fg :: rest)

/-- Flow.startwith.  Note two direct transcriptions from the source:
the membership test asks whether the literal string "name" is a key of
id_map (the source tests the string constant, not the variable), and
the default data group reads the "__input__" counter without
incrementing it (a defaultdict read, which materializes the key). -/
def Flow.startwith (s : FlowState) (name : String) (gs : List Group)
    (function : FunctionRef) (config : Option (List (String × Json)))
    (data : List (String × Json)) (settings : PlatformSettings) :
    Except Err (FlowState × String) :=
  if "name" ∈ keysOf s.id_map then .error (.nodeExists name)
  else
    let flowId := name
    let (m1, mapped0) := mapGroups s.id_map gs
    let (m2, mapped) : List (String × Nat) × List FlowGroup :=
      match data with
      | [] => (m1, mapped0)
      | _ =>
        let cn := "__input__" ++ natDec (dget m1 "__input__")
        (dictSet m1 "__input__" (dget m1 "__input__"),
         mapped0 ++ [FlowGroup.mk "__input__" cn data])
    let nodeGroups := (alookup flowId s.groups).getD []
    let nodeGroups2 := mapped.foldl
      (fun d (fg : FlowGroup) => dictSet d fg.name fg) nodeGroups
    let args : List (String × AlternativeArgument) := mapped.foldl
      (fun d (fg : FlowGroup) => dictSet d fg.name ⟨some fg.collection_name, none⟩) []
    let proc : Processor := ⟨function, function.processor_id, dumpConfig config, args, settings⟩
    .ok (⟨m2, dictSet s.processors flowId proc, dictSet s.groups flowId nodeGroups2⟩, flowId)

/-- Flow.add: appends a node with no bindings.  The duplicate check is
the same literal-string membership test as in startwith. -/
def Flow.add (s : FlowState) (name : String) (function : FunctionRef)
    (config : Option (List (String × Json))) (settings : PlatformSettings) :
    Except Err (FlowState × String) :=
  if "name" ∈ keysOf s.id_map then .error (.nodeExists name)
  else
    .ok (⟨s.id_map,
          dictSet s.processors name
            ⟨function, function.processor_id, dumpConfig config, [], settings⟩,
          s.groups⟩, name)

/-- Flow.addflow: bind the output of fromRef into argument to of
inRef.  The defaultdict read of groups[inRef] materializes the key
even on the error paths, as in the source. -/
def Flow.addflow (s : FlowState) (fromRef to_ inRef : String) : Except Err FlowState :=
  let nodeGroups := (alookup inRef s.groups).getD []
  let s1 : FlowState := ⟨s.id_map, s.processors, dictSet s.groups inRef nodeGroups⟩
  if to_ ∈ keysOf nodeGroups then .error (.duplicateGroupBinding inRef to_)
  else
    match alookup inRef s1.processors with
    | none => .error (.keyErr inRef)
    | some proc =>
      if to_ ∈ keysOf proc.arguments then .error (.duplicateArgBinding inRef to_)
      else
        .ok ⟨s1.id_map,
             dictSet s1.processors inRef
               ⟨proc.image, proc.processorId, proc.cfg,
                dictSet proc.arguments to_ ⟨none, some fromRef⟩, proc.platformSettings⟩,
             s1.groups⟩

/-! ## core_api/run.py -/

/-- Modelled from the spec: terminals(), section 4.2 — the subset of
nodes never referenced as an upstream source in any other node's
bindings.  The method is called by RunResults in core_api/run.py but
its definition in core_api/pipeline.py is not among the sources. -/
def terminalsOf (procs : List (String × Processor)) : List (String × Processor) :=
  procs.filter fun e =>
    ! procs.any fun o =>
        decide (o.1 ≠ e.1) && o.2.arguments.any fun a => decide (a.2.id = some e.1)

/-- One remote run: run id, operation id and the pipeline the operation
was prepared from. -/
structure Run where
  id : String
  operation_id : String
  pipeline_id : Option String
deriving DecidableEq, Repr

/-- An oracle for the Platform API collaborator
fetchCollectionDocuments(collectionName, operationId, runId) of
section 6, returning the ordered JSON documents of a collection. -/
def FetchDocs : Type := String → String → String → List Json

/-- RunNamedResult(run, name).docs(): fetch the collection named name
for this run and decode every document. -/
def namedDocs (fetch : FetchDocs) (run : Run) (name : String) : List Json :=
  fetch name run.operation_id run.id

/-- RunResults.__get_terminal_result_id: require a pipeline id, fetch
the pipeline, require exactly one terminal, and take the name of its
single declared output descriptor. -/
def terminalResultId (st : PlatformState) (run : Run) : Except Err String :=
  match run.pipeline_id with
  | none => .error .noPipeline
  | some pid =>
    match Pipeline.get st pid with
    | .error e => .error e
    | .ok p =>
      match h : terminalsOf p.processors with
      | [t] =>
        match alookup t.1 (asCorePipeline p).results with
        | some (r :: _) => .ok r.name
        | _ => .error (.keyErr t.1)
      | ts => .error (.ambiguousTerminal ts.length)

/-- RunResults.docs(): the documents of the single terminal's declared
output collection. -/
def runDocs (fetch : FetchDocs) (st : PlatformState) (run : Run) :
    Except Err (List Json) :=
  (terminalResultId st run).map fun n => namedDocs fetch run n

/-- The status literal Run.status declares as its return type. -/
inductive RunStatus where
  | in_progress
  | completed
  | failed
deriving DecidableEq, Repr

/-- The match statement of Run.status over the platform status string:
in_progress, running and waiting coalesce to in_progress, everything
else raises. -/
def runStatusOf (s : String) : Except Err RunStatus :=
  if s = "in_progress" ∨ s = "running" ∨ s = "waiting" then .ok .in_progress
  else .error (.unexpectedStatus s)

/-- Run.status: poll get_run_status (an oracle from operation id and
run id to the status string) and map the result. -/
def Run.status (getRunStatus : String → String → String) (run : Run) :
    Except Err RunStatus :=
  runStatusOf (getRunStatus run.operation_id run.id)

/-! ## usp/credstore.py and the credential resolution of parse_fn -/

/-- An image-registry credential record (usp/credstore.py). -/
structure ImageCredentials where
  ref : String
  user : String
  token : String
deriving DecidableEq, Repr

/-- A stored credential record of either kind. -/
inductive StoredCred where
  | core (user password host : String)
  | image (ref user token : String)
deriving DecidableEq, Repr

/-- UserCredentialsStore.get_all_image_credentials: every stored record
of type image, in store order. -/
def getAllImageCredentials (store : List StoredCred) : List ImageCredentials :=
  store.filterMap fun c =>
    match c with
    | .image r u t => some ⟨r, u, t⟩
    | _ => none

/-- The longest-prefix scan of parse_fn: best_match and
longest_prefix_len, updated when a record's ref is a prefix of the
resolved image path and strictly longer than the best so far. -/
def bestImageCred (refStr : String) (creds : List ImageCredentials) :
    Option ImageCredentials × Nat :=
  creds.foldl
    (fun acc c =>
      if c.ref.data.isPrefixOf refStr.data && decide (acc.2 < c.ref.length) then
        (some c, c.ref.length)
      else acc)
    (none, 0)

/-- The credential-attachment step of parse_fn: when no embedded
credentials were parsed, attach the best store match if any; absence
of a match leaves the reference unauthenticated. -/
def resolveCreds (store : List StoredCred) (fr : FunctionRef) : FunctionRef :=
  if fr.user = none ∨ fr.token = none then
    match (bestImageCred fr.ref (getAllImageCredentials store)).1 with
    | some c => ⟨fr.processor_id, some c.user, some c.token, fr.ref, fr.tag, fr.syncRef⟩
    | none => fr
  else fr

/-! ## utils.py parse_fn: the five reference grammars

Each anchored regular expression of parse_fn is deterministic except
for the lazy image-path group of the second pattern: every repeated
class in them is followed by a character the class excludes, so each
group must end at the first such character.  The lazy group is resolved
by scanning split positions left to right.  (The trailing-newline
tolerance of re.match with a dollar anchor is not modeled.)
-/

/-- Split at the first occurrence of a separator character; none if
absent.  The first component excludes, the second follows, the
separator. -/
def splitFirst (c : Char) : List Char → Option (List Char × List Char)
  | [] => none
  | a :: t =>
    if a = c then some ([], t)
    else (splitFirst c t).map fun p => (a :: p.1, p.2)

/-- Character class of the first pattern's opaque ref: [a-f0-9-]. -/
def isRefChar (c : Char) : Bool := isHexDig c || c = '-'

/-- Leading identifier characters: [a-zA-Z_]. -/
def isIdentStart (c : Char) : Bool :=
  (97 ≤ c.toNat && c.toNat ≤ 122) || (65 ≤ c.toNat && c.toNat ≤ 90) || c = '_'

/-- Identifier characters: [a-zA-Z0-9_]. -/
def isIdentChar (c : Char) : Bool := isIdentStart c || isDecDig c

/-- The shared prefix of patterns one to four: a nonempty colon-free
function name followed by a double colon. -/
def fnSplit (s : List Char) : Option (List Char × List Char) :=
  match splitFirst ':' s with
  | some (fn, rest) =>
    match rest with
    | ':' :: r => if fn = [] then none else some (fn, r)
    | _ => none
  | none => none

/-- The tag and optional digest suffix shared by patterns two to four:
a nonempty at-free tag, optionally followed by an at sign and a digest
of the exact form sha256 colon lowercase-hex. -/
def tagDigest (s : List Char) : Option (List Char × Option (List Char)) :=
  match splitFirst '@' s with
  | none => if s = [] then none else some (s, none)
  | some (tag, rest) =>
    if tag = [] then none
    else
      match rest with
      | 's' :: 'h' :: 'a' :: '2' :: '5' :: '6' :: ':' :: h =>
        if h ≠ [] ∧ h.all isHexDig then
          some (tag, some ('s' :: 'h' :: 'a' :: '2' :: '5' :: '6' :: ':' :: h))
        else none
      | _ => none

/-- The assembled ref string suffix: colon tag, then optionally at
digest. -/
def tagSuffix (td : List Char × Option (List Char)) : List Char :=
  ':' :: td.1 ++ (match td.2 with
                  | some d => '@' :: d
                  | none => [])

/-- The lazy image-path split of the second pattern: the leftmost
nonempty prefix followed by a colon whose remainder parses as tag and
optional digest. -/
def lazyImageSplit (acc : List Char) : List Char → Option (List Char × (List Char × Option (List Char)))
  | [] => none
  | c :: t =>
    if c = ':' ∧ acc ≠ [] then
      match tagDigest t with
      | some td => some (acc.reverse, td)
      | none => lazyImageSplit (c :: acc) t
    else lazyImageSplit (c :: acc) t

/-- Pattern one: name double-colon dollar opaque-id; sync true, the
ref keeps the dollar sign. -/
def pat1 (s : List Char) : Option FunctionRef :=
  match fnSplit s with
  | some (fn, r) =>
    match r with
    | '$' :: ref =>
      if ref ≠ [] ∧ ref.all isRefChar then
        some ⟨⟨fn⟩, none, none, ⟨'$' :: ref⟩, "", true⟩
      else none
    | _ => none
  | none => none

/-- Pattern two: embedded credentials with explicit registry host. -/
def pat2 (s : List Char) : Option FunctionRef :=
  match fnSplit s with
  | some (fn, r) =>
    match splitFirst ':' r with
    | some (user, r2) =>
      if user = [] then none
      else
        match splitFirst '@' r2 with
        | some (pw, r3) =>
          if pw = [] then none
          else
            match splitFirst '/' r3 with
            | some (reg, r4) =>
              if reg = [] then none
              else
                match lazyImageSplit [] r4 with
                | some (img, td) =>
                  some ⟨⟨fn⟩, some ⟨user⟩, some ⟨pw⟩,
                        ⟨reg ++ '/' :: img ++ tagSuffix td⟩, "", true⟩
                | none => none
            | none => none
        | none => none
    | none => none
  | none => none

/-- Pattern three: embedded credentials without registry host. -/
def pat3 (s : List Char) : Option FunctionRef :=
  match fnSplit s with
  | some (fn, r) =>
    match splitFirst ':' r with
    | some (user, r2) =>
      if user = [] then none
      else
        match splitFirst '/' r2 with
        | some (pw, r3) =>
          if pw = [] then none
          else
            match splitFirst ':' r3 with
            | some (img, r4) =>
              if img = [] then none
              else
                match tagDigest r4 with
                | some td => some ⟨⟨fn⟩, some ⟨user⟩, some ⟨pw⟩, ⟨img ++ tagSuffix td⟩, "", true⟩
                | none => none
            | none => none
        | none => none
    | none => none
  | none => none

/-- Pattern four: unauthenticated image reference. -/
def pat4 (s : List Char) : Option FunctionRef :=
  match fnSplit s with
  | some (fn, r) =>
    match splitFirst ':' r with
    | some (img, r2) =>
      if img = [] then none
      else
        match tagDigest r2 with
        | some td => some ⟨⟨fn⟩, none, none, ⟨img ++ tagSuffix td⟩, "", true⟩
        | none => none
    | none => none
  | none => none

/-- Pattern five: a bare identifier; sync false, empty ref. -/
def pat5 (s : List Char) : Option FunctionRef :=
  match s with
  | [] => none
  | c :: t =>
    if isIdentStart c && t.all isIdentChar then
      some ⟨⟨c :: t⟩, none, none, "", "", false⟩
    else none

/-- The five grammars tried in strict priority order, first match
wins. -/
def parsePatterns (s : List Char) : Option FunctionRef :=
  match pat1 s with
  | some fr => some fr
  | none =>
    match pat2 s with
    | some fr => some fr
    | none =>
      match pat3 s with
      | some fr => some fr
      | none =>
        match pat4 s with
        | some fr => some fr
        | none => pat5 s

/-- parse_fn: match the five grammars in order, fail with a
ReferenceFormatError naming the input when none matches, then resolve
store credentials for references without embedded ones. -/
def parse_fn (store : List StoredCred) (s : String) : Except Err FunctionRef :=
  match parsePatterns s.data with
  | some fr => .ok (resolveCreds store fr)
  | none => .error (.referenceFormat s)

/-! ## Spec-level predicates over the embedded code -/

/-- Spec-level equality of two node specs: same function reference,
processor id, serialized config and platform settings, and the same
argument bindings read as a map. -/
def ProcEquiv (p q : Processor) : Prop :=
  p.image = q.image ∧ p.processorId = q.processorId ∧ p.cfg = q.cfg ∧
  p.platformSettings = q.platformSettings ∧
  ∀ k, alookup k p.arguments = alookup k q.arguments

/-- A processor table as the flow builder produces it: node names are
unique and each node's argument bindings have unique names. -/
def WellFormedProcs (l : List (String × Processor)) : Prop :=
  NodupKeys l ∧ ∀ q ∈ l, NodupKeys q.2.arguments

instance (l : List (String × Processor)) : Decidable (WellFormedProcs l) := by
  unfold WellFormedProcs
  infer_instance

/-- Is this the error of either DuplicateBinding site of addflow? -/
def IsDuplicateBindingErr : Option Err → Prop
  | some (.duplicateGroupBinding _ _) => True
  | some (.duplicateArgBinding _ _) => True
  | _ => False

/-! ## Worked example values for the closed instance theorems -/

/-- An example parsed function reference without embedded credentials. -/
def exFn : FunctionRef := ⟨"proc", none, none, "ghcr.io/org/img:1", "", true⟩

/-- Empty platform settings. -/
def exSettings : PlatformSettings := ⟨none, none, none, none⟩

/-- An example node spec with a literal-data binding. -/
def exProcA : Processor :=
  ⟨exFn, "proc", "\x7b\x7d", [("x", ⟨some "c1", none⟩)], exSettings⟩

/-- An example node spec whose binding references node a. -/
def exProcB : Processor :=
  ⟨exFn, "proc", "\x7b\x7d", [("y", ⟨none, some "a"⟩)], exSettings⟩

/-- An example processor table. -/
def exL1 : List (String × Processor) := [("a", exProcA), ("b", exProcB)]

/-- The same table in the opposite insertion order. -/
def exL2 : List (String × Processor) := [("b", exProcB), ("a", exProcA)]

/-- Example literal data for a startwith call. -/
def exData : List (String × Json) := [("k", .str "v")]

/-- An example named literal-data group. -/
def exGroup : Group := ⟨"g", []⟩

/-- An example credential store holding a shorter and a longer
image-registry match key. -/
def exStore : List StoredCred :=
  [.image "ghcr.io" "u1" "t1", .image "ghcr.io/org" "u2" "t2"]

/-- An example platform store with one registered pipeline. -/
def exSt : PlatformState := [("pid", ⟨"pid", exL1, []⟩)]

/-- The pipeline exSt answers for id pid. -/
def exPipe : Pipeline := ⟨"pid", exL1, some []⟩

/-- An example remote run against that pipeline. -/
def exRun : Run := ⟨"run1", "op1", some "pid"⟩

/-- A document-store oracle returning no documents. -/
def exFetch : FetchDocs := fun _ _ _ => []

/-- Strictly key-sorted in code-point order. -/
def KeySorted {α : Type} (l : List (String × α)) : Prop :=
  l.Pairwise (fun a b => strLt a.1 b.1 = true)

/-- Pointwise key equality together with a value relation. -/
def PairRel {α : Type} (r : α → α → Prop) (a b : String × α) : Prop :=
  a.1 = b.1 ∧ r a.2 b.2

/-- Is the first character, if any, not a digit (the context needed for
the number scanner to stop). -/
def headNotDigit : List Char → Prop
  | [] => True
  | c :: _ => isDecDig c = false

/-! # Lemmas -/

/-! ## The code-point order -/

theorem charToNat_inj {a b : Char} (h : a.toNat = b.toNat) : a = b := by
  have ha := Char.ofNat_toNat a
  have hb := Char.ofNat_toNat b
  rw [h] at ha
  exact ha.symm.trans hb

theorem clLt_irrefl (l : List Char) : clLt l l = false := by
  induction l with
  | nil => rfl
  | cons a t ih => simp [clLt, ih]

theorem clLt_asymm : ∀ {a b : List Char}, clLt a b = true → clLt b a = false
  | [], [], h => by simp [clLt] at h
  | [], _ :: _, _ => by simp [clLt]
  | _ :: _, [], h => by simp [clLt] at h
  | a :: as, b :: bs, h => by
    by_cases h1 : a.toNat < b.toNat
    · simp [clLt, show ¬b.toNat < a.toNat by omega, show b.toNat ≠ a.toNat by omega]
    · by_cases h2 : a.toNat = b.toNat
      · simp only [clLt, if_neg h1, if_pos h2] at h
        simp only [clLt, ← h2, lt_self_iff_false, if_false, eq_self_iff_true, if_true]
        exact clLt_asymm h
      · simp [clLt, h1, h2] at h

theorem clLt_conn : ∀ {a b : List Char}, clLt a b = false → clLt b a = false → a = b
  | [], [], _, _ => rfl
  | [], _ :: _, h, _ => by simp [clLt] at h
  | _ :: _, [], _, h => by simp [clLt] at h
  | a :: as, b :: bs, h, h2 => by
    by_cases h3 : a.toNat < b.toNat
    · simp [clLt, h3] at h
    · by_cases h4 : a.toNat = b.toNat
      · simp only [clLt, if_neg h3, if_pos h4] at h
        simp only [clLt, ← h4, lt_self_iff_false, if_false, eq_self_iff_true,
          if_true] at h2
        rw [charToNat_inj h4, clLt_conn h h2]
      · simp [clLt, show b.toNat < a.toNat by omega] at h2

theorem clLt_trans : ∀ {a b c : List Char},
    clLt a b = true → clLt b c = true → clLt a c = true
  | [], _ :: _, _ :: _, _, _ => by simp [clLt]
  | a :: as, b :: bs, c :: cs, h, h2 => by
    by_cases h3 : b.toNat < c.toNat
    · by_cases h4 : a.toNat < b.toNat
      · simp [clLt, show a.toNat < c.toNat by omega]
      · by_cases h5 : a.toNat = b.toNat
        · simp [clLt, show a.toNat < c.toNat by omega]
        · simp [clLt, h4, h5] at h
    · by_cases h5 : b.toNat = c.toNat
      · by_cases h4 : a.toNat < b.toNat
        · simp [clLt, show a.toNat < c.toNat by omega]
        · by_cases h6 : a.toNat = b.toNat
          · simp only [clLt, if_neg h4, if_pos h6] at h
            simp only [clLt, if_neg h3, if_pos h5] at h2
            have hac : ¬a.toNat < c.toNat := by omega
            simp only [clLt, hac, if_false, if_pos (h6.trans h5)]
            exact clLt_trans h h2
          · simp [clLt, h4, h6] at h
      · simp [clLt, h3, h5] at h2

theorem strLt_irrefl (a : String) : strLt a a = false := clLt_irrefl a.data

theorem strLt_asymm {a b : String} (h : strLt a b = true) : strLt b a = false :=
  clLt_asymm h

theorem strLt_conn {a b : String} (h : strLt a b = false) (h2 : strLt b a = false) :
    a = b := by
  cases a; cases b
  exact congrArg String.mk (clLt_conn h h2)

theorem strLt_trans {a b c : String} (h : strLt a b = true) (h2 : strLt b c = true) :
    strLt a c = true := clLt_trans h h2

theorem strLt_of_ne_not_lt {a b : String} (h : strLt a b = false) (h2 : a ≠ b) :
    strLt b a = true := by
  cases h3 : strLt b a
  · exact absurd (strLt_conn h h3) h2
  · rfl

/-! ## Association list lemmas -/

theorem alookup_eq_none {α : Type} (k : String) (l : List (String × α)) :
    alookup k l = none ↔ k ∉ keysOf l := by
  induction l with
  | nil => simp [alookup, keysOf]
  | cons p t ih =>
    simp only [alookup, keysOf, List.map_cons, List.mem_cons]
    by_cases h : p.1 = k
    · subst h
      simp
    · simp only [if_neg h]
      rw [ih]
      simp only [keysOf]
      constructor
      · intro hn hmem
        rcases hmem with h2 | h2
        · exact h h2.symm
        · exact hn h2
      · intro hn h2
        exact hn (Or.inr h2)

theorem alookup_isSome {α : Type} (k : String) (l : List (String × α)) :
    (alookup k l).isSome = true ↔ k ∈ keysOf l := by
  rw [Option.isSome_iff_ne_none]
  rw [ne_eq, alookup_eq_none]
  simp

theorem alookup_cons_self {α : Type} (p : String × α) (t : List (String × α)) :
    alookup p.1 (p :: t) = some p.2 := by
  simp [alookup]

theorem alookup_dictSet {α : Type} (l : List (String × α)) (k : String) (v : α)
    (x : String) :
    alookup x (dictSet l k v) = if x = k then some v else alookup x l := by
  induction l with
  | nil =>
    simp only [dictSet, alookup]
    by_cases h : k = x
    · subst h
      simp
    · rw [if_neg h, if_neg (fun h2 => h h2.symm)]
  | cons p t ih =>
    simp only [dictSet]
    by_cases h : p.1 = k
    · subst h
      simp only [if_pos rfl, alookup]
      by_cases h2 : p.1 = x
      · rw [if_pos h2, if_pos h2.symm]
      · rw [if_neg h2, if_neg (fun h3 => h2 h3.symm), if_neg h2]
    · rw [if_neg h]
      simp only [alookup]
      rw [ih]
      by_cases h2 : p.1 = x
      · subst h2
        simp [h]
      · simp [h2]

theorem dictSet_keys_sub {α : Type} (l : List (String × α)) (k : String) (v : α) :
    ∀ x, x ∈ keysOf (dictSet l k v) ↔ x ∈ keysOf l ∨ x = k := by
  intro x
  rw [← alookup_isSome, ← alookup_isSome, alookup_dictSet]
  by_cases h : x = k
  · simp [h]
  · simp [h]

/-! ## Sorting lemmas (the sort_keys=True canonicalization) -/

theorem insortKey_perm {α : Type} (p : String × α) (l : List (String × α)) :
    List.Perm (insortKey p l) (p :: l) := by
  induction l with
  | nil => rfl
  | cons q t ih =>
    simp only [insortKey]
    split_ifs with h
    · exact (ih.cons q).trans (List.Perm.swap p q t)
    · rfl

theorem sortByKey_perm {α : Type} (l : List (String × α)) :
    List.Perm (sortByKey l) l := by
  induction l with
  | nil => rfl
  | cons p t ih => exact (insortKey_perm p (sortByKey t)).trans (ih.cons p)

theorem nodupKeys_symm {α : Type} :
    Symmetric (fun (a b : String × α) => a.1 ≠ b.1) := by
  intro a b h
  exact fun h2 => h h2.symm

theorem sortByKey_nodupKeys {α : Type} {l : List (String × α)} (h : NodupKeys l) :
    NodupKeys (sortByKey l) :=
  ((sortByKey_perm l).pairwise_iff (fun {_ _} h2 h3 => h2 h3.symm)).mpr h

theorem insortKey_sorted {α : Type} {p : String × α} {l : List (String × α)}
    (hs : KeySorted l) (hn : p.1 ∉ keysOf l) : KeySorted (insortKey p l) := by
  induction l with
  | nil => simp [insortKey, KeySorted]
  | cons q t ih =>
    simp only [keysOf, List.map_cons, List.mem_cons] at hn
    push_neg at hn
    obtain ⟨hn1, hn2⟩ := hn
    simp only [KeySorted, List.pairwise_cons] at hs
    obtain ⟨hq, ht⟩ := hs
    simp only [insortKey]
    split_ifs with h
    · rw [KeySorted, List.pairwise_cons]
      constructor
      · intro b hb
        rcases List.mem_cons.mp ((insortKey_perm p t).mem_iff.mp hb) with h2 | h2
        · subst h2; exact h
        · exact hq b h2
      · exact ih ht hn2
    · rw [KeySorted, List.pairwise_cons]
      constructor
      · intro b hb
        rcases List.mem_cons.mp hb with h2 | h2
        · subst h2
          exact strLt_of_ne_not_lt (by simpa using h) (fun h3 => hn1 h3.symm)
        · exact strLt_trans (strLt_of_ne_not_lt (by simpa using h) (fun h3 => hn1 h3.symm))
            (hq b h2)
      · exact List.Pairwise.cons hq ht

theorem sortByKey_sorted {α : Type} {l : List (String × α)} (h : NodupKeys l) :
    KeySorted (sortByKey l) := by
  induction l with
  | nil => simp [sortByKey, KeySorted]
  | cons p t ih =>
    rw [NodupKeys, List.pairwise_cons] at h
    obtain ⟨hp, ht⟩ := h
    refine insortKey_sorted (ih ht) ?_
    intro hmem
    simp only [keysOf] at hmem
    obtain ⟨q, hq, hq2⟩ := List.mem_map.mp hmem
    exact hp q ((sortByKey_perm t).mem_iff.mp hq) hq2.symm

theorem alookup_sortByKey {α : Type} {l : List (String × α)} (h : NodupKeys l)
    (k : String) : alookup k (sortByKey l) = alookup k l := by
  induction l with
  | nil => rfl
  | cons p t ih =>
    rw [NodupKeys, List.pairwise_cons] at h
    obtain ⟨hp, ht⟩ := h
    have hnotin : p.1 ∉ keysOf (sortByKey t) := by
      intro hmem
      simp only [keysOf] at hmem
      obtain ⟨q, hq, hq2⟩ := List.mem_map.mp hmem
      exact hp q ((sortByKey_perm t).mem_iff.mp hq) hq2.symm
    have step : ∀ (m : List (String × α)), p.1 ∉ keysOf m →
        alookup k (insortKey p m) = if p.1 = k then some p.2 else alookup k m := by
      intro m
      induction m with
      | nil => intro _; simp [insortKey, alookup]
      | cons q t2 ih2 =>
        intro hq
        simp only [keysOf, List.map_cons, List.mem_cons] at hq
        push_neg at hq
        simp only [insortKey]
        by_cases h2 : strLt q.1 p.1 = true
        · rw [if_pos h2]
          simp only [alookup]
          by_cases h3 : q.1 = k
          · subst h3
            simp [hq.1]
          · simp [h3, ih2 hq.2]
        · rw [if_neg h2]
          simp [alookup]
    rw [sortByKey, step _ hnotin, ih ht]
    simp only [alookup]

theorem forall2_alookup {α : Type} {r : α → α → Prop} :
    ∀ {l1 l2 : List (String × α)}, List.Forall₂ (PairRel r) l1 l2 →
      ∀ k, OptRel r (alookup k l1) (alookup k l2)
  | [], [], _, k => by simp [alookup, OptRel]
  | a :: t1, b :: t2, h, k => by
    rcases h with _ | ⟨⟨hk, hv⟩, ht⟩
    by_cases h2 : a.1 = k
    · simp [alookup, h2, hk ▸ h2, OptRel, hv]
    · rw [alookup, alookup, if_neg h2, if_neg (hk ▸ h2)]
      exact forall2_alookup ht k

theorem sorted_head_min {α : Type} {p : String × α} {t : List (String × α)}
    (h : KeySorted (p :: t)) : ∀ k ∈ keysOf t, strLt p.1 k = true := by
  rw [KeySorted, List.pairwise_cons] at h
  intro k hk
  obtain ⟨q, hq, hq2⟩ := List.mem_map.mp hk
  exact hq2 ▸ h.1 q hq

theorem sorted_ext {α : Type} {r : α → α → Prop} :
    ∀ {l1 l2 : List (String × α)}, KeySorted l1 → KeySorted l2 →
      (∀ k, OptRel r (alookup k l1) (alookup k l2)) →
      List.Forall₂ (PairRel r) l1 l2
  | [], [], _, _, _ => List.Forall₂.nil
  | [], b :: t2, _, _, hl => by
    have := hl b.1
    rw [alookup, alookup_cons_self] at this
    simp [OptRel] at this
  | a :: t1, [], _, _, hl => by
    have := hl a.1
    rw [alookup_cons_self, alookup] at this
    simp [OptRel] at this
  | a :: t1, b :: t2, h1, h2, hl => by
    have hkey : a.1 = b.1 := by
      by_contra hne
      have ha := hl a.1
      have hb := hl b.1
      rw [alookup_cons_self] at ha
      rw [alookup_cons_self] at hb
      simp only [alookup] at ha hb
      rw [if_neg (fun h => hne h.symm)] at ha
      rw [if_neg hne] at hb
      have hamem : a.1 ∈ keysOf t2 := by
        cases h3 : alookup a.1 t2 with
        | none => rw [h3] at ha; simp [OptRel] at ha
        | some v => exact (alookup_isSome a.1 t2).mp (by simp [h3])
      have hbmem : b.1 ∈ keysOf t1 := by
        cases h3 : alookup b.1 t1 with
        | none => rw [h3] at hb; simp [OptRel] at hb
        | some v => exact (alookup_isSome b.1 t1).mp (by simp [h3])
      have hab := sorted_head_min h2 a.1 hamem
      have hba := sorted_head_min h1 b.1 hbmem
      rw [strLt_asymm hab] at hba
      exact Bool.false_ne_true hba
    have hval : r a.2 b.2 := by
      have ha := hl a.1
      rw [alookup_cons_self] at ha
      simp only [alookup] at ha
      rw [if_pos hkey.symm] at ha
      exact ha
    refine List.Forall₂.cons ⟨hkey, hval⟩ ?_
    have ht1 : KeySorted t1 := (List.pairwise_cons.mp h1).2
    have ht2 : KeySorted t2 := (List.pairwise_cons.mp h2).2
    refine sorted_ext ht1 ht2 ?_
    intro k
    by_cases h3 : k = a.1
    · have hn1 : alookup k t1 = none := by
        rw [alookup_eq_none]
        intro hmem
        have hlt := sorted_head_min h1 k hmem
        rw [h3, strLt_irrefl] at hlt
        exact Bool.false_ne_true hlt
      have hn2 : alookup k t2 = none := by
        rw [alookup_eq_none]
        intro hmem
        have hlt := sorted_head_min h2 k hmem
        rw [h3, ← hkey, strLt_irrefl] at hlt
        exact Bool.false_ne_true hlt
      rw [hn1, hn2]
      trivial
    · have hk := hl k
      simp only [alookup] at hk
      rw [if_neg (fun h => h3 h.symm), if_neg (fun h => h3 (hkey.trans h).symm)] at hk
      exact hk

theorem forall2_map_eq {α β : Type} {P : α → α → Prop} {f : α → β} :
    ∀ {l1 l2 : List α}, List.Forall₂ P l1 l2 → (∀ a b, P a b → f a = f b) →
      l1.map f = l2.map f
  | [], [], _, _ => rfl
  | a :: t1, b :: t2, h, hf => by
    rcases h with _ | ⟨hab, ht⟩
    simp only [List.map_cons, List.cons.injEq]
    exact ⟨hf a b hab, forall2_map_eq ht hf⟩

theorem map_eq_forall2 {α β : Type} {f : α → β} :
    ∀ {l1 l2 : List α}, l1.map f = l2.map f → List.Forall₂ (fun a b => f a = f b) l1 l2
  | [], [], _ => List.Forall₂.nil
  | [], _ :: _, h => by simp at h
  | _ :: _, [], h => by simp at h
  | a :: t1, b :: t2, h => by
    simp only [List.map_cons, List.cons.injEq] at h
    exact List.Forall₂.cons h.1 (map_eq_forall2 h.2)

/-! ## Decimal rendering lemmas -/

theorem decDig_digit : ∀ d < 10, isDecDig (decDig d) = true ∧ (decDig d).toNat = 48 + d := by
  decide

theorem natDecChars_head : ∀ n, ∃ c t, natDecChars n = c :: t ∧ isDecDig c = true := by
  intro n
  induction n using Nat.strong_induction_on with
  | _ n ih =>
    by_cases h : n < 10
    · refine ⟨decDig n, [], ?_, (decDig_digit n h).1⟩
      rw [natDecChars, dif_pos h]
    · obtain ⟨c, t, he, hd⟩ := ih (n / 10) (Nat.div_lt_self (by omega) (by omega))
      refine ⟨c, t ++ [decDig (n % 10)], ?_, hd⟩
      rw [natDecChars, dif_neg h, he]
      rfl

theorem scanDec_stop (acc : Nat) (l : List Char) (h : headNotDigit l) :
    scanDec acc l = (acc, l) := by
  cases l with
  | nil => rfl
  | cons c t =>
    rw [scanDec, if_neg]
    rw [headNotDigit] at h
    simp [h]

theorem scanDec_append (n : Nat) : ∀ acc rest,
    scanDec acc (natDecChars n ++ rest) =
      scanDec (acc * 10 ^ (natDecChars n).length + n) rest := by
  induction n using Nat.strong_induction_on with
  | _ n ih =>
    intro acc rest
    by_cases h : n < 10
    · rw [natDecChars, dif_pos h]
      rw [List.singleton_append, scanDec, if_pos (decDig_digit n h).1]
      rw [(decDig_digit n h).2]
      simp only [List.length_singleton, pow_one]
      congr 1
      omega
    · have hd : n / 10 < n := Nat.div_lt_self (by omega) (by omega)
      rw [natDecChars, dif_neg h]
      rw [List.append_assoc, List.singleton_append]
      rw [ih (n / 10) hd]
      rw [scanDec, if_pos (decDig_digit (n % 10) (by omega)).1]
      rw [(decDig_digit (n % 10) (by omega)).2]
      have hlen : (natDecChars (n / 10) ++ [decDig (n % 10)]).length =
          (natDecChars (n / 10)).length + 1 := by
        simp
      rw [hlen]
      have h48 : 48 + n % 10 - 48 = n % 10 := by omega
      rw [h48]
      have harith : (acc * 10 ^ (natDecChars (n / 10)).length + n / 10) * 10 + n % 10 =
          acc * 10 ^ ((natDecChars (n / 10)).length + 1) + (n / 10 * 10 + n % 10) := by
        rw [pow_succ]
        ring
      rw [harith]
      congr 1
      omega

theorem scanDec_natDecChars (n : Nat) : scanDec 0 (natDecChars n) = (n, []) := by
  have h := scanDec_append n 0 []
  rw [List.append_nil] at h
  rw [h, scanDec]
  simp

theorem natDecChars_inj {n m : Nat} (h : natDecChars n = natDecChars m) : n = m := by
  have e1 := scanDec_natDecChars n
  rw [h, scanDec_natDecChars m] at e1
  exact (Prod.mk.injEq _ _ _ _ ▸ e1).1.symm

theorem natDec_inj {n m : Nat} (h : natDec n = natDec m) : n = m :=
  natDecChars_inj (congrArg String.data h)

/-! ## UTF-8 lemmas -/

theorem char_toNat_lt (c : Char) : c.toNat < 1114112 := by
  rcases c.valid with h | h
  · exact Nat.lt_trans h (by norm_num)
  · exact h.2

theorem utf8Char_round (c : Char) (rest : List Nat) :
    utf8DecodeChar (utf8Char c ++ rest) = some (c.toNat, rest) := by
  have hv := char_toNat_lt c
  rw [utf8Char]
  by_cases h1 : c.toNat < 128
  · rw [if_pos h1, List.singleton_append]
    simp only [utf8DecodeChar]
    rw [if_pos h1]
  · rw [if_neg h1]
    by_cases h2 : c.toNat < 2048
    · rw [if_pos h2]
      rw [List.cons_append, List.cons_append, List.nil_append]
      simp only [utf8DecodeChar]
      rw [if_neg (by omega), if_neg (by omega), if_pos (by omega)]
      congr 2
      omega
    · rw [if_neg h2]
      by_cases h3 : c.toNat < 65536
      · rw [if_pos h3]
        rw [List.cons_append, List.cons_append, List.cons_append, List.nil_append]
        simp only [utf8DecodeChar]
        rw [if_neg (by omega), if_neg (by omega), if_neg (by omega), if_pos (by omega)]
        congr 2
        omega
      · rw [if_neg h3]
        rw [List.cons_append, List.cons_append, List.cons_append, List.cons_append,
          List.nil_append]
        simp only [utf8DecodeChar]
        rw [if_neg (by omega), if_neg (by omega), if_neg (by omega), if_neg (by omega)]
        congr 2
        omega

theorem utf8_inj : ∀ {l1 l2 : List Char}, utf8 l1 = utf8 l2 → l1 = l2
  | [], [], _ => rfl
  | [], c :: t, h => by
    have e := utf8Char_round c (utf8 t)
    rw [utf8, utf8] at h
    rw [← h, utf8DecodeChar] at e
    exact absurd e (by simp)
  | c :: t, [], h => by
    have e := utf8Char_round c (utf8 t)
    rw [utf8, utf8] at h
    rw [h, utf8DecodeChar] at e
    exact absurd e (by simp)
  | c :: t, d :: u, h => by
    have e1 := utf8Char_round c (utf8 t)
    have e2 := utf8Char_round d (utf8 u)
    rw [utf8, utf8] at h
    rw [h, e2, Option.some.injEq, Prod.mk.injEq] at e1
    rw [charToNat_inj e1.1.symm, utf8_inj e1.2.symm]

/-! ## String escape roundtrip -/

theorem bs_ne_qu : ¬(bs = qu) := by decide

theorem isHexDig_hexDig : ∀ d < 16, isHexDig (hexDig d) = true := by decide

theorem hexVal_hexDig : ∀ d < 16, hexVal (hexDig d) = d := by decide

theorem hexQuad_hex4 (n : Nat) (h : n < 65536) (tail : List Char) :
    hexQuad (hex4 n ++ tail) = some (n, tail) := by
  rw [hex4]
  simp only [List.cons_append, List.nil_append, hexQuad]
  have hc : (isHexDig (hexDig (n / 4096 % 16)) && isHexDig (hexDig (n / 256 % 16)) &&
      isHexDig (hexDig (n / 16 % 16)) && isHexDig (hexDig (n % 16))) = true := by
    rw [isHexDig_hexDig _ (by omega), isHexDig_hexDig _ (by omega),
      isHexDig_hexDig _ (by omega), isHexDig_hexDig _ (by omega)]
    rfl
  rw [if_pos hc]
  rw [hexVal_hexDig _ (by omega), hexVal_hexDig _ (by omega),
    hexVal_hexDig _ (by omega), hexVal_hexDig _ (by omega)]
  have hval : (((n / 4096 % 16) * 16 + n / 256 % 16) * 16 + n / 16 % 16) * 16 + n % 16 = n := by
    omega
  rw [hval]

theorem hexQuad_chain : (true && true && true && true) = true := rfl

theorem parseUEsc_bmp (n : Nat) (h : n < 65536) (hns : ¬(55296 ≤ n ∧ n < 56320))
    (tail : List Char) : parseUEsc (hex4 n ++ tail) = some (Char.ofNat n, tail) := by
  rw [parseUEsc, hexQuad_hex4 n h, Option.some_bind]
  simp [hns]

theorem parseUEsc_astral (u : Nat) (h1 : 65536 ≤ u) (h2 : u < 1114112)
    (tail : List Char) :
    parseUEsc (hex4 (55296 + (u - 65536) / 1024) ++
        (bs :: 'u' :: (hex4 (56320 + (u - 65536) % 1024) ++ tail))) =
      some (Char.ofNat u, tail) := by
  rw [parseUEsc, hexQuad_hex4 _ (by omega), Option.some_bind]
  have hr1 : 55296 ≤ 55296 + (u - 65536) / 1024 ∧ 55296 + (u - 65536) / 1024 < 56320 := by
    omega
  have hr2 : 56320 ≤ 56320 + (u - 65536) % 1024 ∧ 56320 + (u - 65536) % 1024 < 57344 := by
    omega
  simp only [if_pos hr1]
  rw [if_pos ⟨trivial, trivial⟩, hexQuad_hex4 _ (by omega), Option.some_bind, if_pos hr2]
  have hval : 65536 + (55296 + (u - 65536) / 1024 - 55296) * 1024 +
      (56320 + (u - 65536) % 1024 - 56320) = u := by omega
  rw [hval]

theorem parseStrBody_uesc (f : Nat) (l : List Char) :
    parseStrBody (f + 1) (bs :: 'u' :: l) =
      match parseUEsc l with
      | some (d, r3) => (parseStrBody f r3).map fun p => (d :: p.1, p.2)
      | none => none := by
  simp [parseStrBody, bs_ne_qu, show simpleEsc 'u' = none from by decide]

theorem parseStrBody_esc (f : Nat) (c : Char) (tail : List Char) :
    parseStrBody (f + 1) (escChar c ++ tail) =
      (parseStrBody f tail).map fun p => (c :: p.1, p.2) := by
  have hofn := Char.ofNat_toNat c
  rw [escChar]
  by_cases h1 : c = qu
  · rw [if_pos h1]
    subst h1
    simp [parseStrBody, bs_ne_qu, show simpleEsc qu = some qu from by decide]
  · rw [if_neg h1]
    by_cases h2 : c = bs
    · rw [if_pos h2]
      subst h2
      simp [parseStrBody, bs_ne_qu, show simpleEsc bs = some bs from by decide]
    · rw [if_neg h2]
      by_cases h3 : c.toNat = 8
      · rw [if_pos h3]
        have hc : Char.ofNat 8 = c := by rw [← h3]; exact hofn
        simp [parseStrBody, bs_ne_qu,
          show simpleEsc 'b' = some (Char.ofNat 8) from by decide]
        rw [hc]

      · rw [if_neg h3]
        by_cases h4 : c.toNat = 9
        · rw [if_pos h4]
          have hc : Char.ofNat 9 = c := by rw [← h4]; exact hofn
          simp [parseStrBody, bs_ne_qu,
            show simpleEsc 't' = some (Char.ofNat 9) from by decide]
          rw [hc]

        · rw [if_neg h4]
          by_cases h5 : c.toNat = 10
          · rw [if_pos h5]
            have hc : Char.ofNat 10 = c := by rw [← h5]; exact hofn
            simp [parseStrBody, bs_ne_qu,
              show simpleEsc 'n' = some (Char.ofNat 10) from by decide]
            rw [hc]

          · rw [if_neg h5]
            by_cases h6 : c.toNat = 12
            · rw [if_pos h6]
              have hc : Char.ofNat 12 = c := by rw [← h6]; exact hofn
              simp [parseStrBody, bs_ne_qu,
                show simpleEsc 'f' = some (Char.ofNat 12) from by decide]
              rw [hc]

            · rw [if_neg h6]
              by_cases h7 : c.toNat = 13
              · rw [if_pos h7]
                have hc : Char.ofNat 13 = c := by rw [← h7]; exact hofn
                simp [parseStrBody, bs_ne_qu,
                  show simpleEsc 'r' = some (Char.ofNat 13) from by decide]
                rw [hc]

              · rw [if_neg h7]
                by_cases h8 : c.toNat < 32 ∨ 126 < c.toNat
                · rw [if_pos h8]
                  by_cases h9 : c.toNat < 65536
                  · rw [if_pos h9]
                    have hns : ¬(55296 ≤ c.toNat ∧ c.toNat < 56320) := by
                      have hcv : c.toNat = c.val.toNat := rfl
                      rcases c.valid with hv | hv
                      · omega
                      · rcases hv with ⟨hv1, hv2⟩
                        omega
                    simp only [List.cons_append, List.append_assoc]
                    rw [parseStrBody_uesc, parseUEsc_bmp c.toNat h9 hns]
                    simp [hofn]
                  · rw [if_neg h9]
                    have hup := char_toNat_lt c
                    simp only [List.cons_append, List.append_assoc]
                    rw [parseStrBody_uesc, parseUEsc_astral c.toNat (by omega) hup]
                    simp [hofn]
                · rw [if_neg h8]
                  rw [List.singleton_append]
                  simp [parseStrBody, h1, h2]

theorem parseStrBody_round :
    ∀ (cs : List Char) (f : Nat) (rest : List Char), cs.length < f →
      parseStrBody f (escBody cs ++ qu :: rest) = some (cs, rest)
  | [], f, rest, hf => by
    obtain ⟨f2, rfl⟩ : ∃ f2, f = f2 + 1 := ⟨f - 1, by omega⟩
    simp [escBody, parseStrBody]
  | c :: cs, f, rest, hf => by
    obtain ⟨f2, rfl⟩ : ∃ f2, f = f2 + 1 := ⟨f - 1, by omega⟩
    rw [escBody, List.append_assoc, parseStrBody_esc,
      parseStrBody_round cs f2 rest (by simpa using Nat.lt_of_succ_lt_succ hf)]
    rfl

/-! ## Parser roundtrip -/

theorem string_mk_data (s : String) : String.mk s.data = s := rfl

theorem isDecDig_toNat {c : Char} (h : isDecDig c = true) :
    48 ≤ c.toNat ∧ c.toNat ≤ 57 := by
  simp [isDecDig] at h
  exact h

theorem digit_ne_specials {c : Char} (h : isDecDig c = true) :
    c ≠ 'n' ∧ c ≠ 't' ∧ c ≠ 'f' ∧ c ≠ qu ∧ c ≠ '[' ∧ c ≠ lbrace ∧
    c ≠ ']' ∧ c ≠ rbrace ∧ c ≠ ',' := by
  have hb := isDecDig_toNat h
  refine ⟨?_, ?_, ?_, ?_, ?_, ?_, ?_, ?_, ?_⟩ <;> intro he <;> subst he <;> revert hb <;> decide

theorem intDec_head (n : Int) :
    ∃ c t, intDecChars n = c :: t ∧ (c = '-' ∨ isDecDig c = true) := by
  rw [intDecChars]
  by_cases h : n < 0
  · rw [if_pos h]
    exact ⟨'-', _, rfl, Or.inl rfl⟩
  · rw [if_neg h]
    obtain ⟨c, t, he, hd⟩ := natDecChars_head n.toNat
    exact ⟨c, t, he, Or.inr hd⟩

theorem render_head_ne (j : Json) (A : List Char) :
    ∃ d r, render j ++ A = d :: r ∧ ¬d = ']' ∧ ¬d = rbrace := by
  cases j with
  | null => exact ⟨'n', _, rfl, by decide, by decide⟩
  | bool b =>
    cases b
    · exact ⟨'f', _, rfl, by decide, by decide⟩
    · exact ⟨'t', _, rfl, by decide, by decide⟩
  | num n =>
    obtain ⟨c, t, he, hd⟩ := intDec_head n
    have hrender : render (.num n) = intDecChars n := by simp [render]
    refine ⟨c, t ++ A, by rw [hrender, he, List.cons_append], ?_, ?_⟩
    · rcases hd with hc | hc
      · subst hc; decide
      · exact (digit_ne_specials hc).2.2.2.2.2.2.1
    · rcases hd with hc | hc
      · subst hc; decide
      · exact (digit_ne_specials hc).2.2.2.2.2.2.2.1
  | str s => exact ⟨qu, _, rfl, by decide, by decide⟩
  | arr xs =>
    cases xs
    · exact ⟨'[', _, rfl, by decide, by decide⟩
    · exact ⟨'[', _, rfl, by decide, by decide⟩
  | obj fs =>
    cases fs
    · exact ⟨lbrace, _, rfl, by decide, by decide⟩
    · exact ⟨lbrace, _, rfl, by decide, by decide⟩

theorem hnd_arrTail (xs : List Json) (rest : List Char) :
    headNotDigit (renderArrTail xs ++ ']' :: rest) := by
  cases xs
  · show isDecDig ']' = false
    decide
  · show isDecDig ',' = false
    decide

theorem hnd_objTail (fs : List (String × Json)) (rest : List Char) :
    headNotDigit (renderObjTail fs ++ rbrace :: rest) := by
  cases fs
  · show isDecDig rbrace = false
    decide
  · show isDecDig ',' = false
    decide

theorem scanDec_zero (m : Nat) (rest : List Char) (h : headNotDigit rest) :
    scanDec 0 (natDecChars m ++ rest) = (m, rest) := by
  rw [scanDec_append]
  have he : 0 * 10 ^ (natDecChars m).length + m = m := by omega
  rw [he]
  exact scanDec_stop m rest h

theorem parseNum_round (n : Int) (rest : List Char) (h : headNotDigit rest) :
    parseNum (intDecChars n ++ rest) = some (.num n, rest) := by
  rw [intDecChars]
  by_cases hn : n < 0
  · rw [if_pos hn]
    obtain ⟨c, t, he, hd⟩ := natDecChars_head n.natAbs
    have hs := scanDec_zero n.natAbs rest h
    rw [he] at hs
    rw [List.cons_append, scanDec, if_pos hd] at hs
    have hz : 0 * 10 + (c.toNat - 48) = c.toNat - 48 := by omega
    rw [hz] at hs
    rw [he, List.cons_append, List.cons_append]
    have hni : -(n.natAbs : Int) = n := by omega
    simp only [parseNum, eq_self_iff_true, if_true, if_pos hd, hs, hni]
  · rw [if_neg hn]
    obtain ⟨c, t, he, hd⟩ := natDecChars_head n.toNat
    have hs := scanDec_zero n.toNat rest h
    rw [he] at hs
    rw [List.cons_append, scanDec, if_pos hd] at hs
    have hz : 0 * 10 + (c.toNat - 48) = c.toNat - 48 := by omega
    rw [hz] at hs
    rw [he, List.cons_append]
    have hdm : ¬c = '-' := by
      intro hc
      subst hc
      revert hd
      decide
    have hni : (n.toNat : Int) = n := by omega
    simp only [parseNum, if_neg hdm, if_pos hd, hs, hni]

theorem jweight_pos : ∀ j, 1 ≤ jweight j := by
  intro j
  cases j <;> simp [jweight] <;> omega

theorem jweightL_pos : ∀ xs, 1 ≤ jweightL xs := by
  intro xs
  cases xs <;> simp [jweightL]
  omega

theorem jweightF_pos : ∀ fs, 1 ≤ jweightF fs := by
  intro fs
  cases fs <;> simp [jweightF]
  omega

theorem parse_round : ∀ f : Nat,
    (∀ j rest, jweight j ≤ f → headNotDigit rest →
        parseJson f (render j ++ rest) = some (j, rest)) ∧
    (∀ xs rest, jweightL xs ≤ f →
        parseArrTail f (renderArrTail xs ++ ']' :: rest) = some (xs, rest)) ∧
    (∀ fs rest, jweightF fs ≤ f →
        parseObjTail f (renderObjTail fs ++ rbrace :: rest) = some (fs, rest)) ∧
    (∀ k v rest, 1 + k.data.length + jweight v ≤ f → headNotDigit rest →
        parseObjField f (renderField (k, v) ++ rest) = some ((k, v), rest)) := by
  intro f
  induction f using Nat.strong_induction_on with
  | _ f ih =>
    cases f with
    | zero =>
      refine ⟨?_, ?_, ?_, ?_⟩
      · intro j rest hw _
        have := jweight_pos j
        omega
      · intro xs rest hw
        have := jweightL_pos xs
        omega
      · intro fs rest hw
        have := jweightF_pos fs
        omega
      · intro k v rest hw _
        omega
    | succ f2 =>
      obtain ⟨IHj, IHa, IHo, IHf⟩ := ih f2 (by omega)
      have Pj : ∀ j rest, jweight j ≤ f2 + 1 → headNotDigit rest →
          parseJson (f2 + 1) (render j ++ rest) = some (j, rest) := by
        intro j rest hw hrest
        cases j with
        | null =>
          show parseJson (f2 + 1) (('n' :: 'u' :: 'l' :: 'l' :: []) ++ rest) = _
          simp only [List.cons_append, List.nil_append, parseJson,
            eq_self_iff_true, if_true]
          simp [dropLit]
        | bool b =>
          cases b
          · show parseJson (f2 + 1) (('f' :: 'a' :: 'l' :: 's' :: 'e' :: []) ++ rest) = _
            simp only [List.cons_append, List.nil_append, parseJson,
              if_neg (show ¬(('f' : Char) = 'n') from by decide),
              if_neg (show ¬(('f' : Char) = 't') from by decide),
              eq_self_iff_true, if_true]
            simp [dropLit]
          · show parseJson (f2 + 1) (('t' :: 'r' :: 'u' :: 'e' :: []) ++ rest) = _
            simp only [List.cons_append, List.nil_append, parseJson,
              if_neg (show ¬(('t' : Char) = 'n') from by decide),
              eq_self_iff_true, if_true]
            simp [dropLit]
        | num n =>
          obtain ⟨c, t, he, hd⟩ := intDec_head n
          have hrender : render (.num n) = intDecChars n := by simp [render]
          have hdis : ¬c = 'n' ∧ ¬c = 't' ∧ ¬c = 'f' ∧ ¬c = qu ∧ ¬c = '[' ∧ ¬c = lbrace := by
            rcases hd with hc | hc
            · subst hc
              exact ⟨by decide, by decide, by decide, by decide, by decide, by decide⟩
            · have hsp := digit_ne_specials hc
              exact ⟨hsp.1, hsp.2.1, hsp.2.2.1, hsp.2.2.2.1, hsp.2.2.2.2.1, hsp.2.2.2.2.2.1⟩
          rw [hrender, he, List.cons_append]
          simp only [parseJson]
          rw [if_neg hdis.1, if_neg hdis.2.1, if_neg hdis.2.2.1, if_neg hdis.2.2.2.1,
            if_neg hdis.2.2.2.2.1, if_neg hdis.2.2.2.2.2]
          rw [← List.cons_append, ← he]
          exact parseNum_round n rest hrest
        | str s =>
          have hrender : render (.str s) ++ rest = qu :: (escBody s.data ++ qu :: rest) := by
            simp [render]
          rw [hrender]
          simp only [parseJson,
            if_neg (show ¬(qu = 'n') from by decide),
            if_neg (show ¬(qu = 't') from by decide),
            if_neg (show ¬(qu = 'f') from by decide),
            eq_self_iff_true, if_true]
          have hlen : s.data.length < f2 + 1 := by
            have hjw : jweight (.str s) = s.data.length + 1 := by simp [jweight]
            omega
          rw [parseStrBody_round s.data (f2 + 1) rest hlen]
          simp [string_mk_data]
        | arr xs =>
          cases xs with
          | nil =>
            have hrender : render (.arr []) ++ rest = '[' :: ']' :: rest := by
              simp [render]
            rw [hrender]
            simp only [parseJson,
              if_neg (show ¬(('[' : Char) = 'n') from by decide),
              if_neg (show ¬(('[' : Char) = 't') from by decide),
              if_neg (show ¬(('[' : Char) = 'f') from by decide),
              if_neg (show ¬(('[' : Char) = qu) from by decide),
              eq_self_iff_true, if_true]
          | cons x xs =>
            have hw2 : 1 + (1 + jweight x + jweightL xs) ≤ f2 + 1 := by
              have : jweight (.arr (x :: xs)) = 1 + jweightL (x :: xs) := by simp [jweight]
              have : jweightL (x :: xs) = 1 + jweight x + jweightL xs := by simp [jweightL]
              simp [jweight, jweightL] at hw
              omega
            have hrender : render (.arr (x :: xs)) ++ rest =
                '[' :: (render x ++ (renderArrTail xs ++ ']' :: rest)) := by
              simp [render]
            rw [hrender]
            obtain ⟨d, r, hdr, hne1, _⟩ := render_head_ne x (renderArrTail xs ++ ']' :: rest)
            rw [hdr]
            simp only [parseJson,
              if_neg (show ¬(('[' : Char) = 'n') from by decide),
              if_neg (show ¬(('[' : Char) = 't') from by decide),
              if_neg (show ¬(('[' : Char) = 'f') from by decide),
              if_neg (show ¬(('[' : Char) = qu) from by decide),
              eq_self_iff_true, if_true, if_neg hne1]
            rw [← hdr, IHj x _ (by omega) (hnd_arrTail xs rest)]
            simp only [IHa xs rest (by omega)]
            rfl
        | obj fs =>
          cases fs with
          | nil =>
            have hrender : render (.obj []) ++ rest = lbrace :: rbrace :: rest := by
              simp [render]
            rw [hrender]
            simp only [parseJson,
              if_neg (show ¬(lbrace = 'n') from by decide),
              if_neg (show ¬(lbrace = 't') from by decide),
              if_neg (show ¬(lbrace = 'f') from by decide),
              if_neg (show ¬(lbrace = qu) from by decide),
              if_neg (show ¬(lbrace = '[') from by decide),
              eq_self_iff_true, if_true]
          | cons g fs =>
            obtain ⟨gk, gv⟩ := g
            have hjw : jweight (Json.obj ((gk, gv) :: fs)) =
                2 + (2 + gk.data.length + jweight gv + jweightF fs) := rfl
            rw [hjw] at hw
            have hgw := jweight_pos gv
            have hfw := jweightF_pos fs
            have hrender : render (.obj ((gk, gv) :: fs)) ++ rest =
                lbrace :: (renderField (gk, gv) ++ (renderObjTail fs ++ rbrace :: rest)) := by
              simp [render]
            rw [hrender]
            have hdr : renderField (gk, gv) ++ (renderObjTail fs ++ rbrace :: rest) =
                qu :: ((escBody gk.data ++ (qu :: ':' :: ' ' :: render gv)) ++
                  (renderObjTail fs ++ rbrace :: rest)) := rfl
            have hne1 : ¬qu = rbrace := by decide
            rw [hdr]
            simp only [parseJson,
              if_neg (show ¬(lbrace = 'n') from by decide),
              if_neg (show ¬(lbrace = 't') from by decide),
              if_neg (show ¬(lbrace = 'f') from by decide),
              if_neg (show ¬(lbrace = qu) from by decide),
              if_neg (show ¬(lbrace = '[') from by decide),
              eq_self_iff_true, if_true, if_neg hne1]
            rw [← hdr]
            rw [IHf gk gv _ (by omega) (hnd_objTail fs rest)]
            simp only [IHo fs rest (by omega)]
            rfl
      refine ⟨Pj, ?_, ?_, ?_⟩
      · intro xs rest hw
        cases xs with
        | nil =>
          show parseArrTail (f2 + 1) (']' :: rest) = _
          simp only [parseArrTail, eq_self_iff_true, if_true]
        | cons x xs =>
          have hw2 : 1 + jweight x + jweightL xs ≤ f2 + 1 := by
            simp [jweightL] at hw
            omega
          show parseArrTail (f2 + 1) ((',' :: ' ' :: (render x ++ renderArrTail xs))
              ++ ']' :: rest) = _
          simp only [List.cons_append, List.append_assoc]
          simp only [parseArrTail,
            if_neg (show ¬((',' : Char) = ']') from by decide),
            eq_self_iff_true, if_true]
          rw [IHj x _ (by omega) (hnd_arrTail xs rest)]
          simp only [IHa xs rest (by omega)]
          rfl
      · intro fs rest hw
        cases fs with
        | nil =>
          show parseObjTail (f2 + 1) (rbrace :: rest) = _
          simp only [parseObjTail, eq_self_iff_true, if_true]
        | cons g fs =>
          obtain ⟨gk, gv⟩ := g
          have hjw : jweightF ((gk, gv) :: fs) =
              2 + gk.data.length + jweight gv + jweightF fs := rfl
          rw [hjw] at hw
          have hgw := jweight_pos gv
          have hfw := jweightF_pos fs
          show parseObjTail (f2 + 1) ((',' :: ' ' :: (renderField (gk, gv) ++ renderObjTail fs))
              ++ rbrace :: rest) = _
          simp only [List.cons_append, List.append_assoc]
          simp only [parseObjTail,
            if_neg (show ¬((',' : Char) = rbrace) from by decide),
            eq_self_iff_true, if_true]
          rw [IHf gk gv _ (by omega) (hnd_objTail fs rest)]
          simp only [IHo fs rest (by omega)]
          rfl
      · intro k v rest hw hrest
        have hshape : renderField (k, v) ++ rest =
            qu :: (escBody k.data ++ qu :: (':' :: ' ' :: (render v ++ rest))) := by
          rw [renderField.eq_def]
          simp
        rw [hshape]
        simp only [parseObjField, eq_self_iff_true, if_true]
        rw [parseStrBody_round k.data (f2 + 1) _ (by omega)]
        simp only [dropLit, eq_self_iff_true, if_true]
        rw [IHj v rest (by omega) hrest]
        simp [string_mk_data]

theorem render_inj {j1 j2 : Json} (h : render j1 = render j2) : j1 = j2 := by
  have h1 := ((parse_round (jweight j1 + jweight j2)).1 j1 []
    (by omega) trivial)
  have h2 := ((parse_round (jweight j1 + jweight j2)).1 j2 []
    (by omega) trivial)
  rw [h, h2, Option.some.injEq, Prod.mk.injEq] at h1
  exact h1.1.symm

/-! ## Injectivity of the model serialization (identity of a pipeline) -/

theorem optRel_eq {α : Type} : ∀ {o1 o2 : Option α}, OptRel Eq o1 o2 ↔ o1 = o2
  | none, none => by simp [OptRel]
  | none, some b => by simp [OptRel]
  | some a, none => by simp [OptRel]
  | some a, some b => by simp [OptRel]

theorem optStrJson_inj : ∀ {a b : Option String}, optStrJson a = optStrJson b → a = b
  | none, none, _ => rfl
  | none, some b, h => by simp [optStrJson] at h
  | some a, none, h => by simp [optStrJson] at h
  | some a, some b, h => by simpa [optStrJson] using h

theorem optIntJson_inj : ∀ {a b : Option Int}, optIntJson a = optIntJson b → a = b
  | none, none, _ => rfl
  | none, some b, h => by simp [optIntJson] at h
  | some a, none, h => by simp [optIntJson] at h
  | some a, some b, h => by simpa [optIntJson] using h

theorem argJson_inj {a b : AlternativeArgument} (h : argJson a = argJson b) : a = b := by
  obtain ⟨a1, a2⟩ := a
  obtain ⟨b1, b2⟩ := b
  simp only [argJson, Json.obj.injEq, List.cons.injEq, Prod.mk.injEq, true_and,
    and_true] at h
  rw [AlternativeArgument.mk.injEq]
  exact ⟨optStrJson_inj h.1, optStrJson_inj h.2⟩

theorem funcRefJson_inj {a b : FunctionRef} (h : funcRefJson a = funcRefJson b) :
    a = b := by
  obtain ⟨a1, a2, a3, a4, a5, a6⟩ := a
  obtain ⟨b1, b2, b3, b4, b5, b6⟩ := b
  simp only [funcRefJson, Json.obj.injEq, List.cons.injEq, Prod.mk.injEq,
    Json.str.injEq, Json.bool.injEq, true_and, and_true] at h
  obtain ⟨h1, h4, h6, h5, h3, h2⟩ := h
  rw [FunctionRef.mk.injEq]
  exact ⟨h1, optStrJson_inj h2, optStrJson_inj h3, h4, h5, h6⟩

theorem settingsJson_inj {a b : PlatformSettings} (h : settingsJson a = settingsJson b) :
    a = b := by
  obtain ⟨a1, a2, a3, a4⟩ := a
  obtain ⟨b1, b2, b3, b4⟩ := b
  simp only [settingsJson, Json.obj.injEq, List.cons.injEq, Prod.mk.injEq,
    true_and, and_true] at h
  obtain ⟨h2, h4, h1, h3⟩ := h
  rw [PlatformSettings.mk.injEq]
  exact ⟨optIntJson_inj h1, optIntJson_inj h2, optIntJson_inj h3, optIntJson_inj h4⟩

theorem forall2_imp_mem {α : Type} {P Q : α → α → Prop} :
    ∀ {l1 l2 : List α}, List.Forall₂ P l1 l2 →
      (∀ a ∈ l1, ∀ b ∈ l2, P a b → Q a b) → List.Forall₂ Q l1 l2
  | [], [], _, _ => List.Forall₂.nil
  | a :: t1, b :: t2, h, hf => by
    rcases h with _ | ⟨hab, ht⟩
    refine List.Forall₂.cons (hf a (by simp) b (by simp) hab) ?_
    exact forall2_imp_mem ht (fun x hx y hy hxy =>
      hf x (by simp [hx]) y (by simp [hy]) hxy)

theorem forall2_map_eq_mem {α β : Type} {P : α → α → Prop} {f : α → β}
    {l1 l2 : List α} (h : List.Forall₂ P l1 l2)
    (hf : ∀ a ∈ l1, ∀ b ∈ l2, P a b → f a = f b) : l1.map f = l2.map f :=
  forall2_map_eq (forall2_imp_mem h hf) (fun _ _ hab => hab)

theorem sortedMap_of_lookup {α β : Type} {enc : α → β}
    {l1 l2 : List (String × α)} (h1 : NodupKeys l1) (h2 : NodupKeys l2)
    (hl : ∀ k, alookup k l1 = alookup k l2) :
    (sortByKey l1).map (fun q => (q.1, enc q.2)) =
      (sortByKey l2).map (fun q => (q.1, enc q.2)) := by
  have hopt : ∀ k, OptRel Eq (alookup k (sortByKey l1)) (alookup k (sortByKey l2)) := by
    intro k
    rw [alookup_sortByKey h1, alookup_sortByKey h2, optRel_eq]
    exact hl k
  have hs := sorted_ext (sortByKey_sorted h1) (sortByKey_sorted h2) hopt
  refine forall2_map_eq hs ?_
  intro a b hab
  rw [Prod.ext_iff]
  exact ⟨hab.1, congrArg enc hab.2⟩

theorem lookup_of_sortedMap {α β : Type} {enc : α → β}
    (hinj : ∀ x y : α, enc x = enc y → x = y)
    {l1 l2 : List (String × α)} (h1 : NodupKeys l1) (h2 : NodupKeys l2)
    (h : (sortByKey l1).map (fun q => (q.1, enc q.2)) =
      (sortByKey l2).map (fun q => (q.1, enc q.2))) :
    ∀ k, alookup k l1 = alookup k l2 := by
  have hf := map_eq_forall2 h
  have hp : List.Forall₂ (PairRel Eq) (sortByKey l1) (sortByKey l2) := by
    refine List.Forall₂.imp ?_ hf
    intro a b hab
    rw [Prod.mk.injEq] at hab
    exact ⟨hab.1, hinj _ _ hab.2⟩
  intro k
  have h3 := forall2_alookup hp k
  rw [alookup_sortByKey h1, alookup_sortByKey h2, optRel_eq] at h3
  exact h3

theorem procJson_equiv {p q : Processor}
    (hp : NodupKeys p.arguments) (hq : NodupKeys q.arguments) :
    procJson p = procJson q ↔ ProcEquiv p q := by
  constructor
  · intro h
    simp only [procJson, Json.obj.injEq, List.cons.injEq, Prod.mk.injEq,
      Json.str.injEq, true_and, and_true] at h
    obtain ⟨hargs, hcfg, himg, hset, hpid⟩ := h
    exact ⟨funcRefJson_inj himg, hpid, hcfg, settingsJson_inj hset,
      lookup_of_sortedMap (fun _ _ hv => argJson_inj hv) hp hq hargs⟩
  · intro h
    obtain ⟨himg, hpid, hcfg, hset, hargs⟩ := h
    have hmap : (sortByKey p.arguments).map (fun r => (r.1, argJson r.2)) =
        (sortByKey q.arguments).map (fun r => (r.1, argJson r.2)) :=
      sortedMap_of_lookup hp hq hargs
    simp only [procJson, himg, hpid, hcfg, hset, hmap]

theorem digestInput_eq_iff {l1 l2 : List (String × Processor)}
    (h1 : WellFormedProcs l1) (h2 : WellFormedProcs l2) :
    digestInput l1 = digestInput l2 ↔
      ∀ k, OptRel ProcEquiv (alookup k l1) (alookup k l2) := by
  constructor
  · intro h
    have hser : serializeProcessors l1 = serializeProcessors l2 := utf8_inj h
    have hjson := render_inj hser
    have hmap : (sortByKey l1).map (fun q => (q.1, procJson q.2)) =
        (sortByKey l2).map (fun q => (q.1, procJson q.2)) := by
      simpa [Json.obj.injEq] using hjson
    have hf := map_eq_forall2 hmap
    have hp : List.Forall₂ (PairRel ProcEquiv) (sortByKey l1) (sortByKey l2) := by
      refine forall2_imp_mem hf ?_
      intro a ha b hb hab
      rw [Prod.mk.injEq] at hab
      have hna : NodupKeys a.2.arguments :=
        h1.2 a ((sortByKey_perm l1).mem_iff.mp ha)
      have hnb : NodupKeys b.2.arguments :=
        h2.2 b ((sortByKey_perm l2).mem_iff.mp hb)
      exact ⟨hab.1, (procJson_equiv hna hnb).mp hab.2⟩
    intro k
    have h3 := forall2_alookup hp k
    rw [alookup_sortByKey h1.1, alookup_sortByKey h2.1] at h3
    exact h3
  · intro hl
    have hs := sorted_ext (sortByKey_sorted h1.1) (sortByKey_sorted h2.1)
      (fun k => by rw [alookup_sortByKey h1.1, alookup_sortByKey h2.1]; exact hl k)
    have hmap : (sortByKey l1).map (fun q => (q.1, procJson q.2)) =
        (sortByKey l2).map (fun q => (q.1, procJson q.2)) := by
      refine forall2_map_eq_mem hs ?_
      intro a ha b hb hab
      have hna : NodupKeys a.2.arguments :=
        h1.2 a ((sortByKey_perm l1).mem_iff.mp ha)
      have hnb : NodupKeys b.2.arguments :=
        h2.2 b ((sortByKey_perm l2).mem_iff.mp hb)
      have hv : procJson a.2 = procJson b.2 := (procJson_equiv hna hnb).mpr hab.2
      rw [Prod.ext_iff]
      exact ⟨hab.1, hv⟩
    show utf8 (serializeProcessors l1) = utf8 (serializeProcessors l2)
    unfold serializeProcessors
    rw [hmap]


/-! ## Results mapping, collection names and the credential fold -/

theorem alookup_map_key {α β : Type} (f : String → β) :
    ∀ (l : List (String × α)) (k : String),
      alookup k (l.map fun q => (q.1, f q.1)) =
        if k ∈ keysOf l then some (f k) else none
  | [], k => by simp [alookup, keysOf]
  | p :: t, k => by
    simp only [List.map_cons, alookup, keysOf, List.mem_cons]
    by_cases h : p.1 = k
    · subst h
      simp
    · rw [if_neg h, alookup_map_key f t k]
      simp only [keysOf]
      by_cases h2 : k ∈ List.map Prod.fst t
      · rw [if_pos h2, if_pos (Or.inr h2)]
      · rw [if_neg h2, if_neg ?_]
        intro h3
        rcases h3 with h3 | h3
        · exact h h3.symm
        · exact h2 h3

theorem append_underscore_ne (a k : String) : a ++ "_" ++ k ≠ k := by
  intro h
  have h2 := congrArg (fun s => s.data.length) h
  simp only [String.data_append, List.length_append, List.length_cons,
    List.length_nil] at h2
  omega

theorem append_natDec_inj (p : String) {a b : Nat}
    (h : p ++ "_" ++ natDec a = p ++ "_" ++ natDec b) : a = b := by
  have h2 : (p ++ "_" ++ natDec a).data = (p ++ "_" ++ natDec b).data := by rw [h]
  simp only [String.data_append] at h2
  have h3 := List.append_cancel_left h2
  exact natDecChars_inj h3

/-- The credential-fold step of parse_fn. -/
theorem bestCred_fold_keep (refStr : String) (c : ImageCredentials) :
    ∀ (l : List ImageCredentials),
      (∀ d ∈ l, d.ref.data.isPrefixOf refStr.data = true → d.ref.length ≤ c.ref.length) →
      List.foldl
        (fun acc d =>
          if d.ref.data.isPrefixOf refStr.data && decide (acc.2 < d.ref.length) then
            (some d, d.ref.length)
          else acc)
        (some c, c.ref.length) l = (some c, c.ref.length)
  | [], _ => rfl
  | d :: t, hb => by
    have hstep :
        (if d.ref.data.isPrefixOf refStr.data && decide (c.ref.length < d.ref.length) then
            (some d, d.ref.length)
          else ((some c, c.ref.length) : Option ImageCredentials × Nat)) =
          (some c, c.ref.length) := by
      by_cases hp : d.ref.data.isPrefixOf refStr.data = true
      · have := hb d (by simp) hp
        rw [if_neg]
        simp only [hp, Bool.true_and, decide_eq_true_eq]
        omega
      · rw [if_neg]
        simp only [Bool.and_eq_true, decide_eq_true_eq, not_and]
        intro h _
        exact hp h
    rw [List.foldl_cons, hstep]
    exact bestCred_fold_keep refStr c t (fun e he hp => hb e (by simp [he]) hp)

theorem bestCred_fold_reach (refStr : String) (c : ImageCredentials)
    (hpre : c.ref.data.isPrefixOf refStr.data = true) :
    ∀ (l : List ImageCredentials) (acc : Option ImageCredentials × Nat),
      c ∈ l → acc.2 < c.ref.length →
      (∀ d ∈ l, d.ref.data.isPrefixOf refStr.data = true →
        d = c ∨ d.ref.length < c.ref.length) →
      List.foldl
        (fun acc d =>
          if d.ref.data.isPrefixOf refStr.data && decide (acc.2 < d.ref.length) then
            (some d, d.ref.length)
          else acc)
        acc l = (some c, c.ref.length)
  | [], _, hm, _, _ => absurd hm (by simp)
  | d :: t, acc, hm, hlt, hb => by
    rw [List.foldl_cons]
    by_cases hdc : d = c
    · subst hdc
      rw [if_pos (by simp [hpre]; omega)]
      refine bestCred_fold_keep refStr d t ?_
      intro e he hp
      rcases hb e (by simp [he]) hp with h | h
      · rw [h]
      · omega
    · have hm2 : c ∈ t := by
        rcases List.mem_cons.mp hm with h | h
        · exact absurd h.symm hdc
        · exact h
      have hb2 : ∀ e ∈ t, e.ref.data.isPrefixOf refStr.data = true →
          e = c ∨ e.ref.length < c.ref.length :=
        fun e he hp => hb e (by simp [he]) hp
      by_cases hstep : d.ref.data.isPrefixOf refStr.data && decide (acc.2 < d.ref.length)
      · rw [if_pos hstep]
        have hand := hstep
        simp only [Bool.and_eq_true, decide_eq_true_eq] at hand
        have hdp : d.ref.data.isPrefixOf refStr.data = true := hand.1
        have hlen : d.ref.length < c.ref.length := by
          rcases hb d (by simp) hdp with h | h
          · exact absurd h hdc
          · exact h
        exact bestCred_fold_reach refStr c hpre t (some d, d.ref.length) hm2 hlen hb2
      · rw [if_neg hstep]
        exact bestCred_fold_reach refStr c hpre t acc hm2 hlt hb2

theorem bestCred_fold_nomatch (refStr : String) :
    ∀ (l : List ImageCredentials) (acc : Option ImageCredentials × Nat),
      (∀ d ∈ l, ¬ d.ref.data.isPrefixOf refStr.data = true) →
      List.foldl
        (fun acc d =>
          if d.ref.data.isPrefixOf refStr.data && decide (acc.2 < d.ref.length) then
            (some d, d.ref.length)
          else acc)
        acc l = acc
  | [], _, _ => rfl
  | d :: t, acc, hb => by
    rw [List.foldl_cons, if_neg (by simp [hb d (by simp)])]
    exact bestCred_fold_nomatch refStr t acc (fun e he => hb e (by simp [he]))

theorem bestImageCred_unique (refStr : String) (creds : List ImageCredentials)
    (c : ImageCredentials) (hc : c ∈ creds)
    (hpre : c.ref.data.isPrefixOf refStr.data = true)
    (hpos : 0 < c.ref.length)
    (hmax : ∀ d ∈ creds, d.ref.data.isPrefixOf refStr.data = true →
        d = c ∨ d.ref.length < c.ref.length) :
    bestImageCred refStr creds = (some c, c.ref.length) := by
  unfold bestImageCred
  exact bestCred_fold_reach refStr c hpre creds (none, 0) hc hpos hmax

theorem bestImageCred_none (refStr : String) (creds : List ImageCredentials)
    (h : ∀ d ∈ creds, ¬ d.ref.data.isPrefixOf refStr.data = true) :
    bestImageCred refStr creds = (none, 0) := by
  unfold bestImageCred
  exact bestCred_fold_nomatch refStr creds (none, 0) h


theorem natDecChars_zero : natDecChars 0 = ['0'] := by
  rw [natDecChars, dif_pos (by omega)]
  rfl

theorem natDec_zero : natDec 0 = "0" := by
  unfold natDec
  rw [natDecChars_zero]

/-! # Claim theorems -/

/-- C3: the status poll coalesces in_progress, running and waiting to
in_progress and raises UnexpectedStatusError on every other string; in
particular the platform's terminal outcomes completed and failed are
not recognized, so no remote Run can ever be observed reaching a
terminal status through Run.status (the match statement omits them
despite its declared return type). -/
theorem C3_status_coalescing :
    runStatusOf "in_progress" = .ok .in_progress ∧
    runStatusOf "running" = .ok .in_progress ∧
    runStatusOf "waiting" = .ok .in_progress ∧
    runStatusOf "completed" = .error (.unexpectedStatus "completed") ∧
    runStatusOf "failed" = .error (.unexpectedStatus "failed") ∧
    ∀ getRunStatus r, Run.status getRunStatus r ≠ .ok .completed ∧
      Run.status getRunStatus r ≠ .ok .failed := by
  refine ⟨rfl, rfl, rfl, rfl, rfl, ?_⟩
  intro getRunStatus r
  unfold Run.status runStatusOf
  constructor
  · split
    · simp
    · simp
  · split
    · simp
    · simp

/-- C4: the duplicate-node check of startwith and add tests whether the
literal string "name" is a key of the counter map, not the node's name:
adding the same node name twice is not rejected (the second call
silently succeeds), while any call on a flow whose counter map happens
to contain the key "name" is rejected even for a fresh name. -/
theorem C4_duplicate_name_unchecked :
    errOf (Flow.add emptyFlow "a" exFn none exSettings) = none ∧
    (Flow.add emptyFlow "a" exFn none exSettings).toOption.map
      (fun r => errOf (Flow.add r.1 "a" exFn none exSettings)) = some none ∧
    errOf (Flow.startwith emptyFlow "a" [] exFn none exData exSettings) = none ∧
    (Flow.startwith emptyFlow "a" [] exFn none exData exSettings).toOption.map
      (fun r => errOf (Flow.startwith r.1 "a" [] exFn none exData exSettings)) =
      some none ∧
    errOf (Flow.add ⟨[("name", 1)], [], []⟩ "fresh" exFn none exSettings) =
      some (.nodeExists "fresh") ∧
    errOf (Flow.startwith ⟨[("name", 1)], [], []⟩ "fresh" [] exFn none [] exSettings) =
      some (.nodeExists "fresh") :=
  ⟨rfl, rfl, rfl, rfl, rfl, rfl⟩

/-- C7: the five reference grammars are tried in strict priority order
with first match winning; an input matching none of them fails with a
ReferenceFormatError naming the input; the opaque-ref form yields a
synchronized reference keeping the dollar sign and the bare-identifier
form yields an unsynchronized reference with empty ref. -/
theorem C7_reference_grammars (store : List StoredCred) :
    (∀ s fr, pat1 s = some fr → parsePatterns s = some fr) ∧
    (∀ s fr, pat1 s = none → pat2 s = some fr → parsePatterns s = some fr) ∧
    (∀ s fr, pat1 s = none → pat2 s = none → pat3 s = some fr →
      parsePatterns s = some fr) ∧
    (∀ s fr, pat1 s = none → pat2 s = none → pat3 s = none → pat4 s = some fr →
      parsePatterns s = some fr) ∧
    (∀ s, pat1 s = none → pat2 s = none → pat3 s = none → pat4 s = none →
      parsePatterns s = pat5 s) ∧
    (∀ s, parsePatterns s.data = none →
      parse_fn store s = .error (.referenceFormat s)) ∧
    parse_fn [] "foo::$abc-123" = .ok ⟨"foo", none, none, "$abc-123", "", true⟩ ∧
    parse_fn [] "foo" = .ok ⟨"foo", none, none, "", "", false⟩ ∧
    parse_fn [] "not a ref!" = .error (.referenceFormat "not a ref!") := by
  refine ⟨?_, ?_, ?_, ?_, ?_, ?_, rfl, rfl, rfl⟩
  · intro s fr h
    simp [parsePatterns, h]
  · intro s fr h1 h2
    simp [parsePatterns, h1, h2]
  · intro s fr h1 h2 h3
    simp [parsePatterns, h1, h2, h3]
  · intro s fr h1 h2 h3 h4
    simp [parsePatterns, h1, h2, h3, h4]
  · intro s h1 h2 h3 h4
    simp [parsePatterns, h1, h2, h3, h4]
  · intro s h
    unfold parse_fn
    rw [h]

/-- C8: when the parsed reference carries no embedded credentials the
resolver scans every stored image credential and attaches the record
whose match key is the (unique) longest nonempty prefix of the resolved
image path; when no record's key is a prefix of the path the reference
is returned unchanged and unauthenticated, and embedded credentials are
never overridden. -/
theorem C8_longest_prefix_credentials (store : List StoredCred) (fr : FunctionRef) :
    (∀ c ∈ getAllImageCredentials store,
      (fr.user = none ∨ fr.token = none) →
      c.ref.data.isPrefixOf fr.ref.data = true →
      0 < c.ref.length →
      (∀ d ∈ getAllImageCredentials store,
        d.ref.data.isPrefixOf fr.ref.data = true →
        d = c ∨ d.ref.length < c.ref.length) →
      resolveCreds store fr =
        ⟨fr.processor_id, some c.user, some c.token, fr.ref, fr.tag, fr.syncRef⟩) ∧
    ((∀ d ∈ getAllImageCredentials store, ¬ d.ref.data.isPrefixOf fr.ref.data = true) →
      resolveCreds store fr = fr) ∧
    (∀ u t, fr.user = some u → fr.token = some t → resolveCreds store fr = fr) := by
  refine ⟨?_, ?_, ?_⟩
  · intro c hc hu hpre hpos hmax
    unfold resolveCreds
    rw [if_pos hu,
      bestImageCred_unique fr.ref (getAllImageCredentials store) c hc hpre hpos hmax]
  · intro hno
    unfold resolveCreds
    by_cases hu : fr.user = none ∨ fr.token = none
    · rw [if_pos hu, bestImageCred_none fr.ref _ hno]
    · rw [if_neg hu]
  · intro u t hu ht
    unfold resolveCreds
    rw [hu, ht]
    rw [if_neg (by simp)]

/-- C10: the results mapping as_core_pipeline presents for execution
has exactly the node names as keys, binds every node name to exactly
one descriptor named content-digest-hex underscore node-name, and no
declared output-collection name ever equals the bare node name. -/
theorem C10_results_invariant (p : Pipeline) :
    keysOf (asCorePipeline p).results = keysOf p.processors ∧
    (∀ k, k ∈ keysOf p.processors →
      alookup k (asCorePipeline p).results =
        some [⟨pipelineHashHex p.processors ++ "_" ++ k⟩]) ∧
    (∀ k r, alookup k (asCorePipeline p).results = some r →
      ∃ d, r = [d] ∧ d.name = pipelineHashHex p.processors ++ "_" ++ k ∧
        d.name ≠ k) := by
  have hmk : (asCorePipeline p).results =
      p.processors.map fun q =>
        (q.1, (fun n => [(⟨pipelineHashHex p.processors ++ "_" ++ n⟩ : Result)]) q.1) :=
    rfl
  refine ⟨?_, ?_, ?_⟩
  · rw [hmk]
    simp [keysOf]
  · intro k hk
    rw [hmk, alookup_map_key
      (fun n => ([⟨pipelineHashHex p.processors ++ "_" ++ n⟩] : List Result))
      p.processors k, if_pos hk]
  · intro k r h
    rw [hmk, alookup_map_key
      (fun n => ([⟨pipelineHashHex p.processors ++ "_" ++ n⟩] : List Result))
      p.processors k] at h
    by_cases hk : k ∈ keysOf p.processors
    · rw [if_pos hk] at h
      injection h with h
      exact ⟨⟨pipelineHashHex p.processors ++ "_" ++ k⟩, h.symm, rfl,
        append_underscore_ne _ _⟩
    · rw [if_neg hk] at h
      exact absurd h (by simp)


/-- C1: the pipeline identity is the sha256 digest of the key-sorted
canonical serialization: two graphs whose node specs agree as maps (same
node names bound to equivalent specs: same image, config, settings and
bindings-as-maps) compute equal identities, and the digested
serialization input is equal exactly when the node specs agree, so any
difference in any node's spec changes the digest input (and hence, short
of a sha256 collision, the identity). -/
theorem C1_pipeline_identity (l1 l2 : List (String × Processor))
    (h1 : WellFormedProcs l1) (h2 : WellFormedProcs l2) :
    ((∀ k, OptRel ProcEquiv (alookup k l1) (alookup k l2)) →
      pipelineHashHex l1 = pipelineHashHex l2) ∧
    (digestInput l1 = digestInput l2 ↔
      ∀ k, OptRel ProcEquiv (alookup k l1) (alookup k l2)) := by
  refine ⟨?_, digestInput_eq_iff h1 h2⟩
  intro h
  have hd := (digestInput_eq_iff h1 h2).mpr h
  unfold pipelineHashHex pipelineHash
  rw [hd]

/-- Witness for C1: two tables with the same bindings in different
insertion order digest identically, and the iff holds at them. -/
theorem C1_pipeline_identity_witness :
    digestInput exL1 = digestInput exL2 ↔
      ∀ k, OptRel ProcEquiv (alookup k exL1) (alookup k exL2) :=
  (C1_pipeline_identity exL1 exL2 (by decide) (by decide)).2

/-- C2: upsert computes the identity and fetches; a hit returns the
fetched pipeline with no create; only a miss of that initial fetch
drives create-then-refetch, whose result is again the result of a fetch
against the updated store and carries the computed identity; and a
second upsert on the same graph returns the same pipeline from the
same store without performing the create side effect again. -/
theorem C2_upsert_fetch_create (st : PlatformState) (procs : List (String × Processor)) :
    (∀ cp, getPipeline st (pipelineHashHex procs) = some cp →
      Pipeline.upsert st procs =
        (.ok ⟨cp.pipelineId, cp.processors, some cp.results⟩, st, false)) ∧
    (getPipeline st (pipelineHashHex procs) = none →
      Pipeline.upsert st procs =
        (Pipeline.get
            (createPipeline st (pipelineHashHex procs) procs
              ((asCorePipeline (Pipeline.make procs)).results))
            (pipelineHashHex procs),
          createPipeline st (pipelineHashHex procs) procs
            ((asCorePipeline (Pipeline.make procs)).results),
          true) ∧
      (Pipeline.upsert st procs).1 =
        .ok ⟨pipelineHashHex procs, procs,
          some ((asCorePipeline (Pipeline.make procs)).results)⟩) ∧
    (∀ r1 st1 b1, Pipeline.upsert st procs = (r1, st1, b1) →
      Pipeline.upsert st1 procs = (r1, st1, false)) := by
  have hups : ∀ (s : PlatformState),
      Pipeline.upsert s procs =
        match getPipeline s (pipelineHashHex procs) with
        | some cp => (.ok ⟨cp.pipelineId, cp.processors, some cp.results⟩, s, false)
        | none =>
          (Pipeline.get
              (createPipeline s (pipelineHashHex procs) procs
                ((asCorePipeline (Pipeline.make procs)).results))
              (pipelineHashHex procs),
            createPipeline s (pipelineHashHex procs) procs
              ((asCorePipeline (Pipeline.make procs)).results),
            true) := by
    intro s
    cases hg : getPipeline s (pipelineHashHex procs) with
    | some cp =>
      simp only [Pipeline.upsert, Pipeline.get, Pipeline.make]
      rw [show getPipeline s (Pipeline.mk (pipelineHashHex procs) procs none).id =
          some cp from hg]
    | none =>
      simp only [Pipeline.upsert, Pipeline.get, Pipeline.make]
      rw [show getPipeline s (Pipeline.mk (pipelineHashHex procs) procs none).id =
          none from hg]
      rfl
  have hcreate : getPipeline
      (createPipeline st (pipelineHashHex procs) procs
        ((asCorePipeline (Pipeline.make procs)).results))
      (pipelineHashHex procs) =
      some ⟨pipelineHashHex procs, procs,
        (asCorePipeline (Pipeline.make procs)).results⟩ := by
    show alookup _ (dictSet _ _ _) = _
    rw [alookup_dictSet, if_pos rfl]
  refine ⟨?_, ?_, ?_⟩
  · intro cp h
    rw [hups st, h]
  · intro h
    constructor
    · rw [hups st, h]
    · rw [hups st, h]
      show Pipeline.get _ _ = _
      unfold Pipeline.get
      rw [hcreate]
  · intro r1 st1 b1 h
    rw [hups st] at h
    cases hg : getPipeline st (pipelineHashHex procs) with
    | some cp =>
      rw [hg] at h
      rw [Prod.mk.injEq, Prod.mk.injEq] at h
      obtain ⟨hr, hst, hb⟩ := h
      subst hr
      subst hst
      rw [hups st, hg]
    | none =>
      rw [hg] at h
      rw [Prod.mk.injEq, Prod.mk.injEq] at h
      obtain ⟨hr, hst, hb⟩ := h
      subst hr
      subst hst
      rw [hups _, hcreate]
      unfold Pipeline.get
      rw [hcreate]


/-- C5: addflow raises a DuplicateBinding error exactly when the target
node-argument pair already carries a binding, whether from literal data
supplied at startwith (the groups dict) or from a prior addflow (the
arguments dict); the error names the offending node and argument, and a
second addflow on the same target always fails as a duplicate argument
binding. -/
theorem C5_addflow_duplicate_binding (s : FlowState) (fromRef to_ inRef : String) :
    (IsDuplicateBindingErr (errOf (Flow.addflow s fromRef to_ inRef)) ↔
      to_ ∈ keysOf ((alookup inRef s.groups).getD []) ∨
        ∃ p, alookup inRef s.processors = some p ∧ to_ ∈ keysOf p.arguments) ∧
    (∀ e, errOf (Flow.addflow s fromRef to_ inRef) = some e →
      IsDuplicateBindingErr (some e) →
      e = .duplicateGroupBinding inRef to_ ∨ e = .duplicateArgBinding inRef to_) ∧
    (∀ s2, Flow.addflow s fromRef to_ inRef = .ok s2 →
      Flow.addflow s2 fromRef to_ inRef =
        .error (.duplicateArgBinding inRef to_)) := by
  by_cases hg : to_ ∈ keysOf ((alookup inRef s.groups).getD [])
  · have hv : Flow.addflow s fromRef to_ inRef =
        .error (.duplicateGroupBinding inRef to_) := by
      unfold Flow.addflow
      rw [if_pos hg]
    rw [hv]
    refine ⟨?_, ?_, ?_⟩
    · simp [IsDuplicateBindingErr, errOf, hg]
    · intro e he hd
      simp only [errOf, Option.some.injEq] at he
      exact Or.inl he.symm
    · intro s2 h2
      simp at h2
  · cases hp : alookup inRef s.processors with
    | none =>
      have hv : Flow.addflow s fromRef to_ inRef = .error (.keyErr inRef) := by
        unfold Flow.addflow
        rw [if_neg hg, hp]
      rw [hv]
      refine ⟨?_, ?_, ?_⟩
      · simp [IsDuplicateBindingErr, errOf, hg, hp]
      · intro e he hd
        simp only [errOf, Option.some.injEq] at he
        rw [← he] at hd
        simp [IsDuplicateBindingErr] at hd
      · intro s2 h2
        simp at h2
    | some proc =>
      by_cases ha : to_ ∈ keysOf proc.arguments
      · have hv : Flow.addflow s fromRef to_ inRef =
            .error (.duplicateArgBinding inRef to_) := by
          unfold Flow.addflow
          rw [if_neg hg, hp]
          dsimp only
          rw [if_pos ha]
        rw [hv]
        refine ⟨?_, ?_, ?_⟩
        · simp only [errOf, IsDuplicateBindingErr, true_iff]
          exact Or.inr ⟨proc, rfl, ha⟩
        · intro e he hd
          simp only [errOf, Option.some.injEq] at he
          exact Or.inr he.symm
        · intro s2 h2
          simp at h2
      · have hv : Flow.addflow s fromRef to_ inRef =
            .ok ⟨s.id_map,
              dictSet s.processors inRef
                ⟨proc.image, proc.processorId, proc.cfg,
                 dictSet proc.arguments to_ ⟨none, some fromRef⟩,
                 proc.platformSettings⟩,
              dictSet s.groups inRef ((alookup inRef s.groups).getD [])⟩ := by
          unfold Flow.addflow
          rw [if_neg hg, hp]
          dsimp only
          rw [if_neg ha]
        rw [hv]
        refine ⟨?_, ?_, ?_⟩
        · simp only [errOf, IsDuplicateBindingErr, false_iff]
          intro hcon
          rcases hcon with h | ⟨p2, hp2, ha2⟩
          · exact hg h
          · injection hp2 with hp2
            subst hp2
            exact ha ha2
        · intro e he hd
          simp [errOf] at he
        · intro s2 h2
          injection h2 with h2
          subst h2
          unfold Flow.addflow
          dsimp only
          rw [show alookup inRef
              (dictSet s.groups inRef ((alookup inRef s.groups).getD [])) =
              some ((alookup inRef s.groups).getD []) from by
            rw [alookup_dictSet, if_pos rfl]]
          rw [Option.getD_some, if_neg hg]
          rw [show alookup inRef
              (dictSet s.processors inRef
                ⟨proc.image, proc.processorId, proc.cfg,
                 dictSet proc.arguments to_ ⟨none, some fromRef⟩,
                 proc.platformSettings⟩) =
              some ⟨proc.image, proc.processorId, proc.cfg,
                 dictSet proc.arguments to_ ⟨none, some fromRef⟩,
                 proc.platformSettings⟩ from by rw [alookup_dictSet, if_pos rfl]]
          dsimp only
          rw [if_pos (show to_ ∈ keysOf (dictSet proc.arguments to_
            ⟨none, some fromRef⟩) from (dictSet_keys_sub _ _ _ _).mpr (Or.inr rfl))]


/-- C6: for a fetched pipeline with exactly one terminal node, unnamed
result access returns exactly the documents of named access for that
terminal's declared output collection; with two or more terminals,
unnamed access fails with the ambiguous-terminal error carrying the
count, while named access is an unconditional collection fetch that
succeeds independently of the terminal structure. -/
theorem C6_terminal_results (fetch : FetchDocs) (st : PlatformState) (run : Run)
    (pid : String) (p : Pipeline) (t : String × Processor)
    (hpid : run.pipeline_id = some pid)
    (hget : Pipeline.get st pid = .ok p) :
    (terminalsOf p.processors = [t] →
      runDocs fetch st run =
        .ok (namedDocs fetch run (pipelineHashHex p.processors ++ "_" ++ t.1))) ∧
    (2 ≤ (terminalsOf p.processors).length →
      runDocs fetch st run =
        .error (.ambiguousTerminal (terminalsOf p.processors).length)) ∧
    (∀ name, namedDocs fetch run name = fetch name run.operation_id run.id) := by
  refine ⟨?_, ?_, fun name => rfl⟩
  · intro ht
    have htm : t ∈ p.processors := by
      have h2 : t ∈ terminalsOf p.processors := by
        rw [ht]
        simp
      exact List.mem_of_mem_filter h2
    have hkey : t.1 ∈ keysOf p.processors :=
      List.mem_map.mpr ⟨t, htm, rfl⟩
    have hres : terminalResultId st run =
        .ok (pipelineHashHex p.processors ++ "_" ++ t.1) := by
      unfold terminalResultId
      rw [hpid]
      dsimp only
      rw [hget]
      dsimp only
      split
      · rename_i t2 heq
        rw [ht] at heq
        injection heq with heq
        subst heq
        rw [show (asCorePipeline p).results =
            p.processors.map (fun q =>
              (q.1, (fun n =>
                [(⟨pipelineHashHex p.processors ++ "_" ++ n⟩ : Result)]) q.1)) from rfl]
        rw [alookup_map_key
          (fun n => ([⟨pipelineHashHex p.processors ++ "_" ++ n⟩] : List Result))
          p.processors t.1, if_pos hkey]
      · rename_i hne
        exact absurd ht (hne t)
    unfold runDocs
    rw [hres]
    rfl
  · intro hlen
    have hres : terminalResultId st run =
        .error (.ambiguousTerminal (terminalsOf p.processors).length) := by
      unfold terminalResultId
      rw [hpid]
      dsimp only
      rw [hget]
      dsimp only
      split
      · rename_i t2 heq
        rw [heq] at hlen
        simp at hlen
      · rename_i hne
        rfl
    unfold runDocs
    rw [hres]
    rfl

/-- Witness for C6 at a two-node pipeline whose only terminal is node b. -/
theorem C6_terminal_results_witness :
    runDocs exFetch exSt exRun =
      .ok (namedDocs exFetch exRun (pipelineHashHex exPipe.processors ++ "_" ++ "b")) :=
  (C6_terminal_results exFetch exSt exRun "pid" exPipe ("b", exProcB) rfl rfl).1
    (by decide)


/-- Evaluation of startwith on a single named group and no literal
data: the group's counter is incremented and the collection name is
group-name underscore new-counter. -/
theorem startwith_single (s : FlowState) (n : String) (g : Group)
    (fn : FunctionRef) (cfg : Option (List (String × Json))) (ps : PlatformSettings)
    (hnm : "name" ∉ keysOf s.id_map) :
    Flow.startwith s n [g] fn cfg [] ps =
      .ok (⟨dictSet s.id_map g.name (dget s.id_map g.name + 1),
            dictSet s.processors n
              ⟨fn, fn.processor_id, dumpConfig cfg,
               [(g.name,
                 ⟨some (g.name ++ "_" ++ natDec (dget s.id_map g.name + 1)), none⟩)],
               ps⟩,
            dictSet s.groups n
              (dictSet ((alookup n s.groups).getD []) g.name
                ⟨g.name, g.name ++ "_" ++ natDec (dget s.id_map g.name + 1), g.data⟩)⟩,
          n) := by
  unfold Flow.startwith
  rw [if_neg hnm]
  rfl

/-- Evaluation of startwith with no named groups and nonempty literal
data: the default group's counter is read but written back unchanged,
and the collection name is the string __input__ followed by the current
counter value. -/
theorem startwith_data (s : FlowState) (n : String)
    (fn : FunctionRef) (cfg : Option (List (String × Json))) (ps : PlatformSettings)
    (d : List (String × Json)) (hd : d ≠ [])
    (hnm : "name" ∉ keysOf s.id_map) :
    Flow.startwith s n [] fn cfg d ps =
      .ok (⟨dictSet s.id_map "__input__" (dget s.id_map "__input__"),
            dictSet s.processors n
              ⟨fn, fn.processor_id, dumpConfig cfg,
               [("__input__",
                 ⟨some ("__input__" ++ natDec (dget s.id_map "__input__")), none⟩)],
               ps⟩,
            dictSet s.groups n
              (dictSet ((alookup n s.groups).getD []) "__input__"
                ⟨"__input__", "__input__" ++ natDec (dget s.id_map "__input__"), d⟩)⟩,
          n) := by
  unfold Flow.startwith
  rw [if_neg hnm]
  cases d with
  | nil => exact absurd rfl hd
  | cons x t => rfl

/-- C9 (amended): a named group of literal data is assigned the
collection name groupName underscore ordinal with the per-flow ordinal
incremented on every use, so reusing a named group across two nodes of
one flow yields distinct collection names; the default literal-data
group instead is named __input__ followed by a counter that is read but
never incremented, so every node taking default literal data receives
the same generated collection name and cross-node collisions do occur
for it. -/
theorem C9_group_collection_names (s : FlowState) (n1 n2 : String) (g1 g2 : Group)
    (fn : FunctionRef) (cfg : Option (List (String × Json))) (ps : PlatformSettings)
    (d : List (String × Json))
    (hgn : g2.name = g1.name) (hnm : "name" ∉ keysOf s.id_map)
    (hg1 : g1.name ≠ "name") :
    (∃ s1 s2 p1 p2,
      Flow.startwith s n1 [g1] fn cfg [] ps = .ok (s1, n1) ∧
      Flow.startwith s1 n2 [g2] fn cfg [] ps = .ok (s2, n2) ∧
      alookup n1 s1.processors = some p1 ∧
      alookup n2 s2.processors = some p2 ∧
      alookup g1.name p1.arguments =
        some ⟨some (g1.name ++ "_" ++ natDec (dget s.id_map g1.name + 1)), none⟩ ∧
      alookup g2.name p2.arguments =
        some ⟨some (g1.name ++ "_" ++ natDec (dget s.id_map g1.name + 2)), none⟩ ∧
      g1.name ++ "_" ++ natDec (dget s.id_map g1.name + 1) ≠
        g1.name ++ "_" ++ natDec (dget s.id_map g1.name + 2)) ∧
    (d ≠ [] → ∃ s1 s2 p1 p2,
      Flow.startwith s n1 [] fn cfg d ps = .ok (s1, n1) ∧
      Flow.startwith s1 n2 [] fn cfg d ps = .ok (s2, n2) ∧
      alookup n1 s1.processors = some p1 ∧
      alookup n2 s2.processors = some p2 ∧
      alookup "__input__" p1.arguments =
        some ⟨some ("__input__" ++ natDec (dget s.id_map "__input__")), none⟩ ∧
      alookup "__input__" p2.arguments =
        some ⟨some ("__input__" ++ natDec (dget s.id_map "__input__")), none⟩) := by
  constructor
  · have h1 := startwith_single s n1 g1 fn cfg ps hnm
    have hnm2 : "name" ∉ keysOf (dictSet s.id_map g1.name (dget s.id_map g1.name + 1)) := by
      intro hmem
      rcases (dictSet_keys_sub s.id_map g1.name (dget s.id_map g1.name + 1) "name").mp
        hmem with h | h
      · exact hnm h
      · exact hg1 h.symm
    have h2 := startwith_single
      (⟨dictSet s.id_map g1.name (dget s.id_map g1.name + 1),
        dictSet s.processors n1
          ⟨fn, fn.processor_id, dumpConfig cfg,
           [(g1.name,
             ⟨some (g1.name ++ "_" ++ natDec (dget s.id_map g1.name + 1)), none⟩)],
           ps⟩,
        dictSet s.groups n1
          (dictSet ((alookup n1 s.groups).getD []) g1.name
            ⟨g1.name, g1.name ++ "_" ++ natDec (dget s.id_map g1.name + 1), g1.data⟩)⟩)
      n2 g2 fn cfg ps hnm2
    refine ⟨_, _,
      ⟨fn, fn.processor_id, dumpConfig cfg,
       [(g1.name,
         ⟨some (g1.name ++ "_" ++ natDec (dget s.id_map g1.name + 1)), none⟩)], ps⟩,
      ⟨fn, fn.processor_id, dumpConfig cfg,
       [(g2.name,
         ⟨some (g2.name ++ "_" ++
            natDec (dget (dictSet s.id_map g1.name (dget s.id_map g1.name + 1))
              g2.name + 1)), none⟩)], ps⟩,
      h1, h2, ?_, ?_, ?_, ?_, ?_⟩
    · show alookup n1 (dictSet s.processors n1 _) = _
      rw [alookup_dictSet, if_pos rfl]
    · show alookup n2 (dictSet _ n2 _) = _
      rw [alookup_dictSet, if_pos rfl]
    · show alookup g1.name [(g1.name, _)] = _
      rw [alookup_cons_self
        ((g1.name,
          ⟨some (g1.name ++ "_" ++ natDec (dget s.id_map g1.name + 1)), none⟩) :
          String × AlternativeArgument) []]
    · show alookup g2.name [(g2.name, _)] = _
      rw [alookup_cons_self
        ((g2.name,
          ⟨some (g2.name ++ "_" ++
            natDec (dget (dictSet s.id_map g1.name (dget s.id_map g1.name + 1))
              g2.name + 1)), none⟩) : String × AlternativeArgument) []]
      rw [hgn]
      have hdg : dget (dictSet s.id_map g1.name (dget s.id_map g1.name + 1)) g1.name =
          dget s.id_map g1.name + 1 := by
        unfold dget
        rw [alookup_dictSet, if_pos rfl]
        rfl
      rw [hdg]
    · intro hcon
      have := append_natDec_inj g1.name hcon
      omega
  · intro hd
    have h1 := startwith_data s n1 fn cfg ps d hd hnm
    have hnm2 : "name" ∉
        keysOf (dictSet s.id_map "__input__" (dget s.id_map "__input__")) := by
      intro hmem
      rcases (dictSet_keys_sub s.id_map "__input__" (dget s.id_map "__input__")
        "name").mp hmem with h | h
      · exact hnm h
      · simp at h
    have h2 := startwith_data
      (⟨dictSet s.id_map "__input__" (dget s.id_map "__input__"),
        dictSet s.processors n1
          ⟨fn, fn.processor_id, dumpConfig cfg,
           [("__input__",
             ⟨some ("__input__" ++ natDec (dget s.id_map "__input__")), none⟩)],
           ps⟩,
        dictSet s.groups n1
          (dictSet ((alookup n1 s.groups).getD []) "__input__"
            ⟨"__input__", "__input__" ++ natDec (dget s.id_map "__input__"), d⟩)⟩)
      n2 fn cfg ps d hd hnm2
    refine ⟨_, _,
      ⟨fn, fn.processor_id, dumpConfig cfg,
       [("__input__",
         ⟨some ("__input__" ++ natDec (dget s.id_map "__input__")), none⟩)], ps⟩,
      ⟨fn, fn.processor_id, dumpConfig cfg,
       [("__input__",
         ⟨some ("__input__" ++
            natDec (dget (dictSet s.id_map "__input__" (dget s.id_map "__input__"))
              "__input__")), none⟩)], ps⟩,
      h1, h2, ?_, ?_, ?_, ?_⟩
    · show alookup n1 (dictSet s.processors n1 _) = _
      rw [alookup_dictSet, if_pos rfl]
    · show alookup n2 (dictSet _ n2 _) = _
      rw [alookup_dictSet, if_pos rfl]
    · show alookup "__input__" [("__input__", _)] = _
      rw [alookup_cons_self
        (("__input__",
          ⟨some ("__input__" ++ natDec (dget s.id_map "__input__")), none⟩) :
          String × AlternativeArgument) []]
    · show alookup "__input__" [("__input__", _)] = _
      rw [alookup_cons_self
        (("__input__",
          ⟨some ("__input__" ++
            natDec (dget (dictSet s.id_map "__input__" (dget s.id_map "__input__"))
              "__input__")), none⟩) : String × AlternativeArgument) []]
      have hdg : dget (dictSet s.id_map "__input__" (dget s.id_map "__input__"))
          "__input__" = dget s.id_map "__input__" := by
        unfold dget
        rw [alookup_dictSet, if_pos rfl]
        rfl
      rw [hdg]

/-- Counterexample for C9 as frozen: two nodes created from default
literal data both receive the generated collection name __input__0 (the
ordinal is not of the form groupName underscore ordinal and the counter
never advances), a collision across nodes. -/
theorem C9_counterexample :
    ∃ s1 s2 p1 p2 cn,
      Flow.startwith emptyFlow "a" [] exFn none exData exSettings = .ok (s1, "a") ∧
      Flow.startwith s1 "b" [] exFn none exData exSettings = .ok (s2, "b") ∧
      alookup "a" s1.processors = some p1 ∧
      alookup "b" s2.processors = some p2 ∧
      alookup "__input__" p1.arguments = some ⟨some cn, none⟩ ∧
      alookup "__input__" p2.arguments = some ⟨some cn, none⟩ ∧
      cn = "__input__0" ∧
      ("a" : String) ≠ "b" := by
  refine ⟨_, _, _, _, _, rfl, rfl, rfl, rfl, rfl, rfl, ?_, by decide⟩
  show "__input__" ++ natDec 0 = "__input__0"
  rw [natDec_zero]
  rfl

/-- Witness for C9 (amended) at a concrete flow: the named group g is
used by two nodes and receives g underscore 1 then g underscore 2. -/
theorem C9_group_collection_names_witness :
    ∃ s1 s2 p1 p2,
      Flow.startwith emptyFlow "a" [exGroup] exFn none [] exSettings = .ok (s1, "a") ∧
      Flow.startwith s1 "b" [exGroup] exFn none [] exSettings = .ok (s2, "b") ∧
      alookup "a" s1.processors = some p1 ∧
      alookup "b" s2.processors = some p2 ∧
      alookup exGroup.name p1.arguments =
        some ⟨some (exGroup.name ++ "_" ++
          natDec (dget emptyFlow.id_map exGroup.name + 1)), none⟩ ∧
      alookup exGroup.name p2.arguments =
        some ⟨some (exGroup.name ++ "_" ++
          natDec (dget emptyFlow.id_map exGroup.name + 2)), none⟩ ∧
      exGroup.name ++ "_" ++ natDec (dget emptyFlow.id_map exGroup.name + 1) ≠
        exGroup.name ++ "_" ++ natDec (dget emptyFlow.id_map exGroup.name + 2) :=
  (C9_group_collection_names emptyFlow "a" "b" exGroup exGroup exFn none exSettings
    exData rfl (by decide) (by decide)).1


end MalevichSdk
